import Mathlib

/-!
Verification of the normalcraft voxel renderer core against its specification.

The development shallowly embeds the three core components of the repository:

* the voxel grid and its one-shot visibility pass (`src/world.rs`);
* the texture atlas and its shelf packer (`src/texture.rs`);
* the batched draw-submission state of the renderer (`src/renderer.rs`).

Machine integers are embedded as `Nat`/`Int` (no claim under scrutiny exercises
wrap-around), `Result`/panicking code as `Option`, and the two sources of
nondeterminism in world generation (the Perlin noise threshold test and the
random block type) as explicit oracle functions, so every definition is
executable.
-/

/-! ## Voxel grid (src/world.rs) -/

/-- The five block kinds of `world.rs` (`enum BlockType`). -/
inductive BlockType
  | Dirt | Cobble | Stone | Water | Sand
deriving DecidableEq

/-- A block (`struct Block`).  `position` is a `Vec3` of small exactly
representable integers (`vec3(x as f32, -5. - z as f32, y as f32)`), embedded
as an integer triple; `rotation` is always `Quat::default()`, embedded as the
unit value. -/
structure Block where
  position : Int × Int × Int
  rotation : Unit
  block_type : BlockType
  visible : Bool
deriving DecidableEq

/-- Embedding of `World::flatten_coords`: `x + width * (y + z * height)`. -/
def flatten_coords (width height : Nat) (x y z : Nat) : Nat :=
  x + width * (y + z * height)

/-- The world grid (`struct World`); the `textures` map is glue outside the
grid core and is not part of the embedding. -/
structure World where
  blocks : List (Option Block)
  width : Nat
  height : Nat
  depth : Nat
deriving DecidableEq

def World.flatten (w : World) (x y z : Nat) : Nat :=
  flatten_coords w.width w.height x y z

/-- Embedding of `World::get_block`: index the flat storage at `flatten_coords(x,y,z)`;
`Err` (out of range, or empty cell) is embedded as `none`.  Note the source
performs no bounds check on `x`, `y`, `z` themselves. -/
def World.get_block (w : World) (x y z : Nat) : Option Block :=
  match w.blocks[w.flatten x y z]? with
  | some (some b) => some b
  | _ => none

/-- One iteration of the triple loop in `World::block_visibility`: if the cell
and all six face neighbours hold blocks, the cell's block is rewritten with
`visible = false` (via `get_block_mut`, which addresses the same flat index). -/
def World.visStep (w : World) (x y z : Nat) : World :=
  match w.get_block x y z with
  | none => w
  | some _ =>
    let neighbors := [w.get_block (x - 1) y z, w.get_block (x + 1) y z,
      w.get_block x y (z + 1), w.get_block x y (z - 1),
      w.get_block x (y + 1) z, w.get_block x (y - 1) z]
    if neighbors.all Option.isSome then
      let i := w.flatten x y z
      let nb := (w.blocks[i]?).elim none (Option.map fun b => { b with visible := false })
      { w with blocks := w.blocks.set i nb }
    else w

/-- The index set of the triple loop `for x in 1..width-1 { for y in .. { for z in .. } } }`,
in iteration order. -/
def interiorTriples (width height depth : Nat) : List (Nat × Nat × Nat) :=
  (List.range' 1 (width - 1 - 1)).flatMap fun x =>
    (List.range' 1 (height - 1 - 1)).flatMap fun y =>
      (List.range' 1 (depth - 1 - 1)).map fun z => (x, y, z)

/-- Embedding of `World::block_visibility`: the one-shot visibility pass over all interior
cells. -/
def World.block_visibility (w : World) : World :=
  (interiorTriples w.width w.height w.depth).foldl
    (fun acc t => acc.visStep t.1 t.2.1 t.2.2) w

/-- The body of the generation loop of `World::new` at loop coordinates
`(x, y, z)`: `occ x y z` stands for the threshold test
`perlin(x/16, y/16, z/16) > threshold` and `bt x y z` for the random block
type drawn in that iteration; both are deterministic oracles of the embedding.
An occupied cell is created at `vec3(x as f32, -5. - z as f32, y as f32)`
with default rotation and `visible = true`. -/
def genCell (occ : Nat → Nat → Nat → Bool) (bt : Nat → Nat → Nat → BlockType)
    (x y z : Nat) : Option Block :=
  if occ x y z then
    some { position := ((x : Int), -5 - (z : Int), (y : Int)), rotation := (),
           block_type := bt x y z, visible := true }
  else none

/-- The generation loop of `World::new`: `x` outermost, `z` innermost, one cell
pushed per iteration. -/
def mkBlocks (width height depth : Nat) (occ : Nat → Nat → Nat → Bool)
    (bt : Nat → Nat → Nat → BlockType) : List (Option Block) :=
  (List.range width).flatMap fun x =>
    (List.range height).flatMap fun y =>
      (List.range depth).map fun z => genCell occ bt x y z

/-- The world as `World::new` assembles it just before the visibility pass. -/
def baseWorld (width height depth : Nat) (occ : Nat → Nat → Nat → Bool)
    (bt : Nat → Nat → Nat → BlockType) : World :=
  { blocks := mkBlocks width height depth occ bt,
    width := width, height := height, depth := depth }

/-- Embedding of `World::new`: generate the grid, then run the visibility pass once. -/
def World.new (width height depth : Nat) (occ : Nat → Nat → Nat → Bool)
    (bt : Nat → Nat → Nat → BlockType) : World :=
  World.block_visibility (baseWorld width height depth occ bt)

/-- Occupancy oracle of a fully solid grid (a threshold below every noise
value, as in the repository's own tests with threshold `-9999.0`). -/
def occSolid : Nat → Nat → Nat → Bool := fun _ _ _ => true

/-- A fixed block-type oracle used for concrete instances. -/
def btDirt : Nat → Nat → Nat → BlockType := fun _ _ _ => BlockType.Dirt

/-! ## Texture atlas (src/texture.rs) -/

/-- Embedding of `struct Rect` with `i32` fields embedded as `Int`. -/
structure Rect where
  x : Int
  y : Int
  w : Int
  h : Int
deriving DecidableEq

/-- Embedding of `struct TextureAtlas`.  `TextureHandle = u32` is embedded as `Nat`
(the claims never drive the counter anywhere near wrap-around, where the
source would abort on overflow anyway). -/
structure TextureAtlas where
  counter : Nat
  rects : List (Rect × Nat)
  width : Int
  height : Int
deriving DecidableEq

/-- Embedding of `TextureAtlas::new`. -/
def TextureAtlas.newAtlas : TextureAtlas :=
  { counter := 0, rects := [], width := 0, height := 0 }

/-- Embedding of `TextureAtlas::add`: push a rect at origin with the handle and return the
handle `counter`, then increment the counter. -/
def TextureAtlas.add (a : TextureAtlas) (w h : Int) : TextureAtlas × Nat :=
  ({ a with counter := a.counter + 1,
            rects := a.rects ++ [({ x := 0, y := 0, w := w, h := h }, a.counter)] },
   a.counter)

/-- The sort order of `pack`'s `sort_by(|a, b| b.0.partial_cmp(&a.0).unwrap())`:
`Rect`s compare by height alone, and the comparator is reversed, so the sort is
descending by height. -/
def rectOrder (p q : Rect × Nat) : Prop := q.1.h ≤ p.1.h

instance : DecidableRel rectOrder := fun p q => inferInstanceAs (Decidable (q.1.h ≤ p.1.h))

instance : IsTotal (Rect × Nat) rectOrder := ⟨fun p q => le_total q.1.h p.1.h⟩

instance : IsTrans (Rect × Nat) rectOrder := ⟨fun _ _ _ hab hbc => le_trans hbc hab⟩

/-- The placement walk of `TextureAtlas::pack`, carrying the cursor `(x, y)`
and `max_h`; returns the placed list together with the final `y` and `max_h`.
The break test is the source's `x + rect.x + rect.w >= self.width`, which reads
the rect's x position as it stood BEFORE this pack. -/
def placeRects (width : Int) : Int → Int → Int → List (Rect × Nat) → List (Rect × Nat) × Int × Int
  | _, y, maxH, [] => ([], y, maxH)
  | x, y, maxH, (r, hdl) :: rest =>
    if x + r.x + r.w ≥ width then
      let res := placeRects width (0 + r.w) (y + maxH) r.h rest
      (({ r with x := 0, y := y + maxH }, hdl) :: res.1, res.2)
    else
      let res := placeRects width (x + r.w) y maxH rest
      (({ r with x := x, y := y }, hdl) :: res.1, res.2)

/-- Embedding of `TextureAtlas::pack`: fix the width to 512, stably sort the rects
descending by height (`List.insertionSort` with `rectOrder` computes exactly
the stable sort that `Vec::sort_by` performs), seed `max_h` with the first
sorted rect's height (`first().unwrap()` — `none` embeds the panic on an empty
rect set), run the placement walk, and set `height = y + max_h`. -/
def TextureAtlas.pack (a : TextureAtlas) : Option TextureAtlas :=
  let sorted := a.rects.insertionSort rectOrder
  match sorted with
  | [] => none
  | first :: _ =>
    let res := placeRects 512 0 0 first.1.h sorted
    some { a with width := 512, rects := res.1, height := res.2.1 + res.2.2 }

/-- Embedding of `TextureAtlas::get_rect`: linear search for the handle. -/
def TextureAtlas.get_rect (a : TextureAtlas) (handle : Nat) : Option (Rect × Nat) :=
  a.rects.find? fun p => p.2 == handle

/-- Register a batch of rectangles with `add`, left to right. -/
def addAll : TextureAtlas → List (Int × Int) → TextureAtlas
  | a, [] => a
  | a, (w, h) :: rest => addAll (a.add w h).1 rest

/-- An atlas-facing operation: a registration or a repack. -/
inductive AtlasOp
  | add (w h : Int)
  | pack

/-- Run a sequence of atlas operations; `none` records that some `pack`
panicked on an empty rect set. -/
def runOps : TextureAtlas → List AtlasOp → Option TextureAtlas
  | a, [] => some a
  | a, .add w h :: rest => runOps (a.add w h).1 rest
  | a, .pack :: rest => a.pack.bind fun a2 => runOps a2 rest

/-- The dimensions handed to `add`, in order; the `k`-th entry belongs to
handle `k`. -/
def opDims (ops : List AtlasOp) : List (Int × Int) :=
  ops.filterMap fun o =>
    match o with
    | .add w h => some (w, h)
    | .pack => none

/-- Half-open overlap of two rects, as in the claim: the ranges
`[x, x+w) × [y, y+h)` share a point. -/
def Rect.overlaps (r s : Rect) : Prop :=
  max r.x s.x < min (r.x + r.w) (s.x + s.w) ∧ max r.y s.y < min (r.y + r.h) (s.y + s.h)

instance : DecidableRel Rect.overlaps := fun _ _ =>
  inferInstanceAs (Decidable (_ ∧ _))

/-! Spec-side shelf bookkeeping for the atlas-height claim.  Modelled from the
spec's words: the walk splits the sorted rectangles into consecutive shelves,
"start a new shelf" when `x + w >= atlas_width`, and the atlas height is the
sum over shelves of "the height of the first/tallest rect placed on each
shelf". -/

/-- Spec-side shelf partition: accumulate the current shelf, breaking exactly
when the spec's walk starts a new shelf. -/
def shelvesAux (width : Int) : Int → List Rect → List Rect → List (List Rect)
  | _, cur, [] => [cur.reverse]
  | x, cur, r :: rest =>
    if x + r.w ≥ width then cur.reverse :: shelvesAux width r.w [r] rest
    else shelvesAux width (x + r.w) (r :: cur) rest

/-- Spec-side shelves of a walk over `rs` (first rect opens the first shelf). -/
def shelves (width : Int) : List Rect → List (List Rect)
  | [] => []
  | r :: rest => shelvesAux width r.w [r] rest

/-- The height a shelf contributes: the height of its first rect. -/
def shelfHeadHeight (shelf : List Rect) : Int :=
  (shelf.head?.map Rect.h).getD 0

/-! ## Batched draw submission (src/renderer.rs) -/

/-- The dedup key of `struct Object`: its `Hash`/`PartialEq` instances use the
raw vertex and index bytes only.  Vertex bytes are embedded as an abstract byte
list; the index bytes of a `Vec<u16>` are embedded as the index list itself
(the cast to bytes is a bijection).  The GPU-side buffers the source also
stores are owned by the external collaborator and carry no information used by
`Hash`/`PartialEq`. -/
structure RObject where
  vertex_data : List Nat
  index_data : List Nat
  indices_length : Nat
deriving DecidableEq

/-- Embedding of `struct RenderInstance`: the instance transform (an opaque embedding of the
`[f32; 16]` matrix produced by `Instance::raw`) plus the atlas offset and size
read from the rect at queue time. -/
structure RenderInstance where
  raw : List Int
  tex_offset : Int × Int
  tex_size : Int × Int
deriving DecidableEq

/-- What `queue_draw` reads from a `Drawable` entity: its geometry bytes, its
index list, its transform data, and its texture handle. -/
structure DrawableData where
  vbytes : List Nat
  indices : List Nat
  raw : List Int
  texture : Nat
deriving DecidableEq

/-- The geometry key `create_object` builds from a drawable
(`indices_length = drawable.indices().len()`). -/
def DrawableData.object (d : DrawableData) : RObject :=
  { vertex_data := d.vbytes, index_data := d.indices, indices_length := d.indices.length }

/-- The draw-relevant state of `struct Renderer`: the `objects` hash map from
geometry key to per-frame instance list, embedded as an association list, and
the texture atlas.  GPU pipeline state is the external collaborator. -/
structure Renderer where
  objects : List (RObject × List RenderInstance)
  texture_atlas : TextureAtlas
deriving DecidableEq

/-- The instance record `queue_draw` builds: the entity's transform plus the
atlas offset and size read from its texture's rect. -/
def mkInstance (d : DrawableData) (r : Rect) : RenderInstance :=
  { raw := d.raw, tex_offset := (r.x, r.y), tex_size := (r.w, r.h) }

/-- Embedding of `Renderer::queue_draw`: build the geometry key, look up the instance's
texture rect (`none` embeds the panic on an unregistered handle), then either
append the instance record to the existing `Object`'s list or register a new
`Object` with this record as its single entry. -/
def Renderer.queue_draw (s : Renderer) (d : DrawableData) : Option Renderer :=
  let object := d.object
  match s.texture_atlas.get_rect d.texture with
  | none => none
  | some (rect, _) =>
    let ri : RenderInstance := mkInstance d rect
    if (s.objects.find? fun p => p.1 == object).isSome then
      some { s with objects := s.objects.map fun p =>
               if p.1 == object then (p.1, p.2 ++ [ri]) else p }
    else
      some { s with objects := s.objects ++ [(object, [ri])] }

/-- The state effect of `Renderer::draw` on the batching state: the instance
buffer sizing takes `max_by` over the instance lists and unwraps it (`none`
embeds the panic when no object exists), the render pass walks every object
issuing a draw call, and each object's instance list is cleared in place.
All GPU submission is the external collaborator. -/
def Renderer.draw (s : Renderer) : Option Renderer :=
  match s.objects with
  | [] => none
  | _ :: _ => some { s with objects := s.objects.map fun p => (p.1, []) }

/-! ## C2: flatten_coords is a bijection -/

theorem flatten_coords_lt {width height depth x y z : Nat}
    (hx : x < width) (hy : y < height) (hz : z < depth) :
    flatten_coords width height x y z < width * height * depth := by
  unfold flatten_coords
  have h1 : x + width * (y + z * height) < width * (1 + (y + z * height)) := by
    have : width * (1 + (y + z * height)) = width + width * (y + z * height) := by ring
    omega
  have h2 : 1 + (y + z * height) ≤ height * depth := by nlinarith
  calc x + width * (y + z * height) < width * (1 + (y + z * height)) := h1
    _ ≤ width * (height * depth) := Nat.mul_le_mul_left width h2
    _ = width * height * depth := (Nat.mul_assoc width height depth).symm

theorem flatten_coords_mod {width height : Nat} {x : Nat} (y z : Nat) (hx : x < width) :
    flatten_coords width height x y z % width = x := by
  unfold flatten_coords
  rw [Nat.add_mul_mod_self_left]
  exact Nat.mod_eq_of_lt hx

theorem flatten_coords_div {width height : Nat} {x : Nat} (y z : Nat) (hx : x < width) :
    flatten_coords width height x y z / width = y + z * height := by
  unfold flatten_coords
  rw [Nat.add_mul_div_left _ _ (Nat.pos_of_ne_zero (by omega)),
    Nat.div_eq_of_lt hx, Nat.zero_add]

theorem flatten_coords_inj {width height : Nat} {x y z a b c : Nat}
    (hx : x < width) (hy : y < height) (ha : a < width) (hb : b < height)
    (h : flatten_coords width height x y z = flatten_coords width height a b c) :
    x = a ∧ y = b ∧ z = c := by
  have hxa : x = a := by
    have := congrArg (· % width) h
    simpa [flatten_coords_mod y z hx, flatten_coords_mod b c ha] using this
  have hyz : y + z * height = b + c * height := by
    have := congrArg (· / width) h
    simpa [flatten_coords_div y z hx, flatten_coords_div b c ha] using this
  have hyb : y = b := by
    have := congrArg (· % height) hyz
    simp only [Nat.mul_comm _ height] at this
    rwa [Nat.add_mul_mod_self_left, Nat.add_mul_mod_self_left,
      Nat.mod_eq_of_lt hy, Nat.mod_eq_of_lt hb] at this
  refine ⟨hxa, hyb, ?_⟩
  subst hyb
  have hh : 0 < height := Nat.pos_of_ne_zero (by omega)
  have := Nat.eq_of_mul_eq_mul_right hh (by omega : z * height = c * height)
  exact this

/-- C2: restricted to `[0,width) × [0,height) × [0,depth)`, `flatten_coords`
is a bijection onto `[0, width*height*depth)`, with `x` varying fastest; in
particular `flatten_coords 1 0 0 = 1` and `flatten_coords 0 1 0 = width`. -/
theorem flatten_coords_bijective (width height depth : Nat) :
    Set.BijOn (fun t : Nat × Nat × Nat => flatten_coords width height t.1 t.2.1 t.2.2)
      {t : Nat × Nat × Nat | t.1 < width ∧ t.2.1 < height ∧ t.2.2 < depth}
      {i : Nat | i < width * height * depth}
    ∧ flatten_coords width height 1 0 0 = 1
    ∧ flatten_coords width height 0 1 0 = width := by
  refine ⟨⟨?_, ?_, ?_⟩, by simp [flatten_coords], by simp [flatten_coords]⟩
  · rintro ⟨x, y, z⟩ ⟨hx, hy, hz⟩
    exact flatten_coords_lt hx hy hz
  · rintro ⟨x, y, z⟩ ⟨hx, hy, _⟩ ⟨a, b, c⟩ ⟨ha, hb, _⟩ h
    obtain ⟨e1, e2, e3⟩ := flatten_coords_inj hx hy ha hb h
    simp only [Prod.mk.injEq]
    exact ⟨e1, e2, e3⟩
  · intro i hi
    simp only [Set.mem_setOf_eq] at hi
    have hw : 0 < width := by
      rcases Nat.eq_zero_or_pos width with h | h
      · simp [h] at hi
      · exact h
    have hh : 0 < height := by
      rcases Nat.eq_zero_or_pos height with h | h
      · simp [h] at hi
      · exact h
    refine ⟨(i % width, i / width % height, i / width / height), ⟨?_, ?_, ?_⟩, ?_⟩
    · exact Nat.mod_lt _ hw
    · exact Nat.mod_lt _ hh
    · rw [Nat.div_div_eq_div_mul]
      rw [Nat.div_lt_iff_lt_mul (Nat.mul_pos hw hh)]
      calc i < width * height * depth := hi
        _ = depth * (width * height) := by ring
    · show flatten_coords width height _ _ _ = i
      unfold flatten_coords
      have inner : i / width % height + i / width / height * height = i / width := by
        rw [Nat.mul_comm]
        exact Nat.mod_add_div _ _
      rw [inner]
      exact Nat.mod_add_div _ _

/-! ## Invariants of the visibility pass -/

/-- The rewrite `block_visibility` applies to a culled block. -/
def mkInv (b : Block) : Block := { b with visible := false }

theorem mkInv_position (b : Block) : (mkInv b).position = b.position := rfl

theorem mkInv_visible (b : Block) : (mkInv b).visible = false := rfl

theorem get_block_eq_some {w : World} {x y z : Nat} {b : Block} :
    w.get_block x y z = some b ↔ w.blocks[w.flatten x y z]? = some (some b) := by
  unfold World.get_block
  cases h : w.blocks[w.flatten x y z]? with
  | none => simp
  | some ob => cases ob <;> simp

theorem get_block_isSome_eq {w : World} {x y z : Nat} :
    (w.get_block x y z).isSome = ((w.blocks[w.flatten x y z]?).map Option.isSome).getD false := by
  unfold World.get_block
  cases h : w.blocks[w.flatten x y z]? with
  | none => simp
  | some ob => cases ob <;> simp

theorem visStep_width (w : World) (x y z : Nat) : (w.visStep x y z).width = w.width := by
  unfold World.visStep
  cases w.get_block x y z <;> dsimp only
  split <;> rfl

theorem visStep_height (w : World) (x y z : Nat) : (w.visStep x y z).height = w.height := by
  unfold World.visStep
  cases w.get_block x y z <;> dsimp only
  split <;> rfl

theorem visStep_depth (w : World) (x y z : Nat) : (w.visStep x y z).depth = w.depth := by
  unfold World.visStep
  cases w.get_block x y z <;> dsimp only
  split <;> rfl

theorem visStep_flatten (w : World) (x y z a b c : Nat) :
    (w.visStep x y z).flatten a b c = w.flatten a b c := by
  unfold World.flatten
  rw [visStep_width, visStep_height]

theorem visStep_length (w : World) (x y z : Nat) :
    (w.visStep x y z).blocks.length = w.blocks.length := by
  unfold World.visStep
  cases w.get_block x y z <;> dsimp only
  split
  · exact List.length_set ..
  · rfl

/-- The guard of `visStep` as a Boolean condition. -/
def World.visCond (w : World) (x y z : Nat) : Bool :=
  (w.get_block x y z).isSome &&
    ([w.get_block (x - 1) y z, w.get_block (x + 1) y z,
      w.get_block x y (z + 1), w.get_block x y (z - 1),
      w.get_block x (y + 1) z, w.get_block x (y - 1) z].all Option.isSome)

/-- Each `visStep` rewrites at most the cell at its own flat index, and only when
its guard holds. -/
theorem visStep_blocks (w : World) (x y z i : Nat) :
    (w.visStep x y z).blocks[i]? =
      if w.visCond x y z = true ∧ w.flatten x y z = i
      then (w.blocks[i]?).map (Option.map mkInv)
      else w.blocks[i]? := by
  unfold World.visStep World.visCond
  cases hg : w.get_block x y z with
  | none => simp [hg]
  | some b =>
    dsimp only
    split
    next hall =>
      have hsome : w.blocks[w.flatten x y z]? = some (some b) := get_block_eq_some.mp hg
      rcases eq_or_ne (w.flatten x y z) i with hi | hi
      · subst hi
        rw [if_pos ⟨by simp [hg, hall], rfl⟩]
        simp only [List.getElem?_set_self', hsome]
        rfl
      · rw [if_neg (by rintro ⟨-, h⟩; exact hi h)]
        exact List.getElem?_set_ne hi
    next hall =>
      rw [if_neg (by rintro ⟨h, -⟩; simp [hg, hall] at h)]

theorem visStep_blocks_isSome (w : World) (x y z i : Nat) :
    ((w.visStep x y z).blocks[i]?).map Option.isSome = (w.blocks[i]?).map Option.isSome := by
  rw [visStep_blocks]
  split
  · cases h : w.blocks[i]? with
    | none => rfl
    | some ob => cases ob <;> rfl
  · rfl

theorem visStep_get_block_isSome (w : World) (x y z a b c : Nat) :
    ((w.visStep x y z).get_block a b c).isSome = (w.get_block a b c).isSome := by
  rw [get_block_isSome_eq, get_block_isSome_eq, visStep_flatten, visStep_blocks_isSome]

theorem visStep_visCond (w : World) (x y z a b c : Nat) :
    (w.visStep x y z).visCond a b c = w.visCond a b c := by
  unfold World.visCond
  simp only [List.all_cons, List.all_nil, visStep_get_block_isSome]

theorem map_map_mkInv_idem (o : Option (Option Block)) :
    ((o.map (Option.map mkInv)).map (Option.map mkInv)) = o.map (Option.map mkInv) := by
  cases o with
  | none => rfl
  | some ob => cases ob <;> rfl

/-- Cell-wise characterisation of the full triple-loop fold: a cell ends up
rewritten exactly when some visited triple with its guard true addresses it. -/
theorem foldl_visStep_blocks (L : List (Nat × Nat × Nat)) (w : World) (i : Nat) :
    ((L.foldl (fun acc t => acc.visStep t.1 t.2.1 t.2.2) w).blocks[i]?) =
      if ∃ t ∈ L, w.visCond t.1 t.2.1 t.2.2 = true ∧ w.flatten t.1 t.2.1 t.2.2 = i
      then (w.blocks[i]?).map (Option.map mkInv)
      else w.blocks[i]? := by
  induction L generalizing w with
  | nil => simp
  | cons t L ih =>
    rw [List.foldl_cons, ih]
    simp only [visStep_visCond, visStep_flatten, visStep_blocks]
    by_cases hQ : ∃ t' ∈ L, w.visCond t'.1 t'.2.1 t'.2.2 = true ∧ w.flatten t'.1 t'.2.1 t'.2.2 = i
    · rw [if_pos hQ]
      by_cases hP : w.visCond t.1 t.2.1 t.2.2 = true ∧ w.flatten t.1 t.2.1 t.2.2 = i
      · rw [if_pos hP, if_pos ⟨t, List.mem_cons_self t L, hP⟩, map_map_mkInv_idem]
      · rw [if_neg hP, if_pos ?_]
        obtain ⟨t', ht', h1, h2⟩ := hQ
        exact ⟨t', List.mem_cons_of_mem t ht', h1, h2⟩
    · rw [if_neg hQ]
      by_cases hP : w.visCond t.1 t.2.1 t.2.2 = true ∧ w.flatten t.1 t.2.1 t.2.2 = i
      · rw [if_pos hP, if_pos ⟨t, List.mem_cons_self t L, hP⟩]
      · rw [if_neg hP, if_neg ?_]
        rintro ⟨t', ht', h1, h2⟩
        rcases List.mem_cons.mp ht' with rfl | ht'
        · exact hP ⟨h1, h2⟩
        · exact hQ ⟨t', ht', h1, h2⟩

theorem foldl_visStep_width (L : List (Nat × Nat × Nat)) (w : World) :
    (L.foldl (fun acc t => acc.visStep t.1 t.2.1 t.2.2) w).width = w.width := by
  induction L generalizing w with
  | nil => rfl
  | cons t L ih => rw [List.foldl_cons, ih, visStep_width]

theorem foldl_visStep_height (L : List (Nat × Nat × Nat)) (w : World) :
    (L.foldl (fun acc t => acc.visStep t.1 t.2.1 t.2.2) w).height = w.height := by
  induction L generalizing w with
  | nil => rfl
  | cons t L ih => rw [List.foldl_cons, ih, visStep_height]

theorem foldl_visStep_depth (L : List (Nat × Nat × Nat)) (w : World) :
    (L.foldl (fun acc t => acc.visStep t.1 t.2.1 t.2.2) w).depth = w.depth := by
  induction L generalizing w with
  | nil => rfl
  | cons t L ih => rw [List.foldl_cons, ih, visStep_depth]

theorem foldl_visStep_length (L : List (Nat × Nat × Nat)) (w : World) :
    (L.foldl (fun acc t => acc.visStep t.1 t.2.1 t.2.2) w).blocks.length = w.blocks.length := by
  induction L generalizing w with
  | nil => rfl
  | cons t L ih => rw [List.foldl_cons, ih, visStep_length]

theorem foldl_visStep_visCond (L : List (Nat × Nat × Nat)) (w : World) (a b c : Nat) :
    (L.foldl (fun acc t => acc.visStep t.1 t.2.1 t.2.2) w).visCond a b c = w.visCond a b c := by
  induction L generalizing w with
  | nil => rfl
  | cons t L ih => rw [List.foldl_cons, ih, visStep_visCond]

/-! ## The freshly generated grid -/

theorem range'_flatMap_const_length {α : Type} (f : Nat → List α) (m : Nat)
    (hm : ∀ i, (f i).length = m) :
    ∀ (n s : Nat), ((List.range' s n).flatMap f).length = n * m := by
  intro n
  induction n with
  | zero => intro s; simp
  | succ k ih =>
    intro s
    rw [List.range'_succ, List.flatMap_cons, List.length_append, hm, ih]
    ring

theorem range'_flatMap_const_getElem {α : Type} (f : Nat → List α) (m : Nat)
    (hm : ∀ i, (f i).length = m) :
    ∀ (n s i j : Nat), i < n → j < m →
      ((List.range' s n).flatMap f)[i * m + j]? = (f (s + i))[j]? := by
  intro n
  induction n with
  | zero => intro s i j hi; exact absurd hi (Nat.not_lt_zero i)
  | succ k ih =>
    intro s i j hi hj
    rw [List.range'_succ, List.flatMap_cons]
    cases i with
    | zero =>
      rw [List.getElem?_append_left (by rw [hm]; omega)]
      simp
    | succ i =>
      rw [List.getElem?_append_right (by rw [hm]; nlinarith)]
      have harith : (i + 1) * m + j - (f s).length = i * m + j := by rw [hm]; ring_nf; omega
      rw [harith, ih (s + 1) i j (by omega) hj]
      have : s + 1 + i = s + (i + 1) := by omega
      rw [this]

theorem mkBlocks_length (width height depth : Nat) (occ : Nat → Nat → Nat → Bool)
    (bt : Nat → Nat → Nat → BlockType) :
    (mkBlocks width height depth occ bt).length = width * height * depth := by
  unfold mkBlocks
  rw [List.range_eq_range',
    range'_flatMap_const_length _ (height * depth) ?_ width 0]
  · ring
  · intro x
    rw [List.range_eq_range', range'_flatMap_const_length _ depth ?_ height 0]
    intro y
    rw [List.length_map, List.length_range]

theorem triple_loop_getElem {α : Type} (g : Nat → Nat → Nat → α)
    (width height depth : Nat) {x y z : Nat}
    (hx : x < width) (hy : y < height) (hz : z < depth) :
    ((List.range width).flatMap fun a =>
      (List.range height).flatMap fun b =>
        (List.range depth).map fun c => g a b c)[x * (height * depth) + (y * depth + z)]? =
      some (g x y z) := by
  have hlen1 : ∀ v : Nat, ((List.range height).flatMap fun b =>
      (List.range depth).map fun c => g v b c).length = height * depth := by
    intro v
    rw [List.range_eq_range', range'_flatMap_const_length _ depth ?_ height 0]
    intro b
    rw [List.length_map, List.length_range]
  rw [List.range_eq_range' width,
    range'_flatMap_const_getElem _ (height * depth) hlen1 width 0 x (y * depth + z) hx
      (by nlinarith)]
  rw [Nat.zero_add, List.range_eq_range' height,
    range'_flatMap_const_getElem _ depth ?_ height 0 y z hy hz]
  · rw [Nat.zero_add, List.getElem?_map, List.getElem?_range hz]
    rfl
  · intro b
    rw [List.length_map, List.length_range]

theorem mkBlocks_getElem (width height depth : Nat) (occ : Nat → Nat → Nat → Bool)
    (bt : Nat → Nat → Nat → BlockType) {x y z : Nat}
    (hx : x < width) (hy : y < height) (hz : z < depth) :
    (mkBlocks width height depth occ bt)[x * (height * depth) + (y * depth + z)]? =
      some (genCell occ bt x y z) := by
  unfold mkBlocks
  exact triple_loop_getElem (genCell occ bt) width height depth hx hy hz

theorem mkBlocks_visible {width height depth : Nat} {occ : Nat → Nat → Nat → Bool}
    {bt : Nat → Nat → Nat → BlockType} {i : Nat} {b : Block}
    (h : (mkBlocks width height depth occ bt)[i]? = some (some b)) : b.visible = true := by
  have hmem : (some b) ∈ mkBlocks width height depth occ bt := List.getElem?_mem h
  unfold mkBlocks at hmem
  rw [List.mem_flatMap] at hmem
  obtain ⟨x, -, hmem⟩ := hmem
  rw [List.mem_flatMap] at hmem
  obtain ⟨y, -, hmem⟩ := hmem
  rw [List.mem_map] at hmem
  obtain ⟨z, -, hmem⟩ := hmem
  unfold genCell at hmem
  by_cases hocc : occ x y z
  · rw [if_pos hocc] at hmem
    cases hmem
    rfl
  · rw [if_neg hocc] at hmem
    cases hmem

/-! ## Projections of `World.new` -/

theorem new_width (width height depth : Nat) (occ : Nat → Nat → Nat → Bool)
    (bt : Nat → Nat → Nat → BlockType) :
    (World.new width height depth occ bt).width = width := by
  unfold World.new World.block_visibility
  rw [foldl_visStep_width]
  rfl

theorem new_height (width height depth : Nat) (occ : Nat → Nat → Nat → Bool)
    (bt : Nat → Nat → Nat → BlockType) :
    (World.new width height depth occ bt).height = height := by
  unfold World.new World.block_visibility
  rw [foldl_visStep_height]
  rfl

theorem new_depth (width height depth : Nat) (occ : Nat → Nat → Nat → Bool)
    (bt : Nat → Nat → Nat → BlockType) :
    (World.new width height depth occ bt).depth = depth := by
  unfold World.new World.block_visibility
  rw [foldl_visStep_depth]
  rfl

theorem new_length (width height depth : Nat) (occ : Nat → Nat → Nat → Bool)
    (bt : Nat → Nat → Nat → BlockType) :
    (World.new width height depth occ bt).blocks.length = width * height * depth := by
  unfold World.new World.block_visibility
  rw [foldl_visStep_length]
  exact mkBlocks_length ..

theorem new_flatten (width height depth : Nat) (occ : Nat → Nat → Nat → Bool)
    (bt : Nat → Nat → Nat → BlockType) (x y z : Nat) :
    (World.new width height depth occ bt).flatten x y z = flatten_coords width height x y z := by
  unfold World.flatten
  rw [new_width, new_height]

theorem mem_interiorTriples {width height depth x y z : Nat} :
    (x, y, z) ∈ interiorTriples width height depth ↔
      (1 ≤ x ∧ x < width - 1) ∧ (1 ≤ y ∧ y < height - 1) ∧ (1 ≤ z ∧ z < depth - 1) := by
  unfold interiorTriples
  simp only [List.mem_flatMap, List.mem_map, List.mem_range'_1, Prod.mk.injEq]
  constructor
  · rintro ⟨a, ⟨ha1, ha2⟩, b, ⟨hb1, hb2⟩, c, ⟨hc1, hc2⟩, rfl, rfl, rfl⟩
    omega
  · rintro ⟨⟨hx1, hx2⟩, ⟨hy1, hy2⟩, ⟨hz1, hz2⟩⟩
    exact ⟨x, ⟨hx1, by omega⟩, y, ⟨hy1, by omega⟩, z, ⟨hz1, by omega⟩, rfl, rfl, rfl⟩

/-! ## C1: the visibility pass -/

theorem foldl_visStep_get_block_isSome (L : List (Nat × Nat × Nat)) (w : World) (a b c : Nat) :
    ((L.foldl (fun acc t => acc.visStep t.1 t.2.1 t.2.2) w).get_block a b c).isSome
      = (w.get_block a b c).isSome := by
  induction L generalizing w with
  | nil => rfl
  | cons t L ih => rw [List.foldl_cons, ih, visStep_get_block_isSome]

theorem visCond_true_iff (w : World) (x y z : Nat) :
    w.visCond x y z = true ↔
      (w.get_block x y z).isSome = true ∧
      ((w.get_block (x - 1) y z).isSome = true ∧ (w.get_block (x + 1) y z).isSome = true ∧
       (w.get_block x y (z + 1)).isSome = true ∧ (w.get_block x y (z - 1)).isSome = true ∧
       (w.get_block x (y + 1) z).isSome = true ∧ (w.get_block x (y - 1) z).isSome = true) := by
  unfold World.visCond
  simp [List.all_cons, and_assoc]

theorem visibility_pass_general (width height depth : Nat) (occ : Nat → Nat → Nat → Bool)
    (bt : Nat → Nat → Nat → BlockType) (x y z : Nat) (b : Block)
    (hx : x < width) (hy : y < height) (hz : z < depth)
    (hb : (World.new width height depth occ bt).get_block x y z = some b) :
    (b.visible = false ↔
      ((1 ≤ x ∧ x < width - 1 ∧ 1 ≤ y ∧ y < height - 1 ∧ 1 ≤ z ∧ z < depth - 1) ∧
       (((World.new width height depth occ bt).get_block (x - 1) y z).isSome = true ∧
        ((World.new width height depth occ bt).get_block (x + 1) y z).isSome = true ∧
        ((World.new width height depth occ bt).get_block x y (z + 1)).isSome = true ∧
        ((World.new width height depth occ bt).get_block x y (z - 1)).isSome = true ∧
        ((World.new width height depth occ bt).get_block x (y + 1) z).isSome = true ∧
        ((World.new width height depth occ bt).get_block x (y - 1) z).isSome = true))) := by
  have hW : World.new width height depth occ bt
      = (interiorTriples width height depth).foldl (fun acc t => acc.visStep t.1 t.2.1 t.2.2)
          (baseWorld width height depth occ bt) := rfl
  have hcell0 : (World.new width height depth occ bt).blocks[flatten_coords width height x y z]?
      = some (some b) := by
    have h0 := get_block_eq_some.mp hb
    rwa [new_flatten] at h0
  have hfold := foldl_visStep_blocks (interiorTriples width height depth)
    (baseWorld width height depth occ bt) (flatten_coords width height x y z)
  rw [← hW] at hfold
  have htrans : ∀ a b c : Nat,
      ((baseWorld width height depth occ bt).get_block a b c).isSome
        = ((World.new width height depth occ bt).get_block a b c).isSome := by
    intro a b c
    rw [hW, foldl_visStep_get_block_isSome]
  have hbflat : ∀ a b c : Nat,
      (baseWorld width height depth occ bt).flatten a b c = flatten_coords width height a b c :=
    fun _ _ _ => rfl
  have hEiff : (∃ t ∈ interiorTriples width height depth,
      (baseWorld width height depth occ bt).visCond t.1 t.2.1 t.2.2 = true ∧
      (baseWorld width height depth occ bt).flatten t.1 t.2.1 t.2.2
        = flatten_coords width height x y z) ↔
      ((1 ≤ x ∧ x < width - 1 ∧ 1 ≤ y ∧ y < height - 1 ∧ 1 ≤ z ∧ z < depth - 1) ∧
       (((World.new width height depth occ bt).get_block (x - 1) y z).isSome = true ∧
        ((World.new width height depth occ bt).get_block (x + 1) y z).isSome = true ∧
        ((World.new width height depth occ bt).get_block x y (z + 1)).isSome = true ∧
        ((World.new width height depth occ bt).get_block x y (z - 1)).isSome = true ∧
        ((World.new width height depth occ bt).get_block x (y + 1) z).isSome = true ∧
        ((World.new width height depth occ bt).get_block x (y - 1) z).isSome = true)) := by
    constructor
    · rintro ⟨⟨a, b2, c⟩, ht, hcond, hflat⟩
      have hmem := mem_interiorTriples.mp ht
      rw [hbflat] at hflat
      have hinj := flatten_coords_inj (x := a) (y := b2) (z := c) (a := x) (b := y) (c := z)
        (by omega) (by omega) hx hy hflat
      obtain ⟨rfl, rfl, rfl⟩ := hinj
      rw [visCond_true_iff] at hcond
      refine ⟨⟨hmem.1.1, hmem.1.2, hmem.2.1.1, hmem.2.1.2, hmem.2.2.1, hmem.2.2.2⟩, ?_⟩
      obtain ⟨-, h1, h2, h3, h4, h5, h6⟩ := hcond
      rw [htrans] at h1 h2 h3 h4 h5 h6
      exact ⟨h1, h2, h3, h4, h5, h6⟩
    · rintro ⟨hint, h1, h2, h3, h4, h5, h6⟩
      refine ⟨(x, y, z), mem_interiorTriples.mpr
        ⟨⟨hint.1, hint.2.1⟩, ⟨hint.2.2.1, hint.2.2.2.1⟩, ⟨hint.2.2.2.2.1, hint.2.2.2.2.2⟩⟩,
        ?_, hbflat x y z⟩
      rw [visCond_true_iff]
      rw [← htrans] at h1 h2 h3 h4 h5 h6
      refine ⟨?_, h1, h2, h3, h4, h5, h6⟩
      rw [htrans, hb]
      rfl
  by_cases hE : ∃ t ∈ interiorTriples width height depth,
      (baseWorld width height depth occ bt).visCond t.1 t.2.1 t.2.2 = true ∧
      (baseWorld width height depth occ bt).flatten t.1 t.2.1 t.2.2
        = flatten_coords width height x y z
  · rw [if_pos hE] at hfold
    rw [hfold] at hcell0
    have hex : ∃ b0 : Block,
        (mkBlocks width height depth occ bt)[flatten_coords width height x y z]?
          = some (some b0) ∧ b = mkInv b0 := by
      cases h0 : (mkBlocks width height depth occ bt)[flatten_coords width height x y z]? with
      | none =>
        rw [show (baseWorld width height depth occ bt).blocks
            = mkBlocks width height depth occ bt from rfl, h0] at hcell0
        cases hcell0
      | some ob =>
        rw [show (baseWorld width height depth occ bt).blocks
            = mkBlocks width height depth occ bt from rfl, h0] at hcell0
        cases ob with
        | none => cases hcell0
        | some b0 =>
          refine ⟨b0, rfl, ?_⟩
          have h2 : some (some (mkInv b0)) = some (some b) := hcell0
          cases h2
          rfl
    obtain ⟨b0, -, rfl⟩ := hex
    rw [mkInv_visible]
    exact ⟨fun _ => hEiff.mp hE, fun _ => rfl⟩
  · rw [if_neg hE] at hfold
    rw [hfold] at hcell0
    have hvis : b.visible = true := mkBlocks_visible hcell0
    rw [hvis]
    constructor
    · intro h; cases h
    · intro h
      exact absurd (hEiff.mpr h) hE

/-- Whatever block `get_block` returns on the finished world is, up to the
`visible` rewrite, a cell of the freshly generated grid at the same flat
index. -/
theorem new_get_block_some (width height depth : Nat) (occ : Nat → Nat → Nat → Bool)
    (bt : Nat → Nat → Nat → BlockType) (x y z : Nat) (b : Block)
    (hb : (World.new width height depth occ bt).get_block x y z = some b) :
    ∃ b0 : Block,
      (mkBlocks width height depth occ bt)[flatten_coords width height x y z]? = some (some b0)
        ∧ (b = b0 ∨ b = mkInv b0) := by
  have hW : World.new width height depth occ bt
      = (interiorTriples width height depth).foldl (fun acc t => acc.visStep t.1 t.2.1 t.2.2)
          (baseWorld width height depth occ bt) := rfl
  have hcell0 : (World.new width height depth occ bt).blocks[flatten_coords width height x y z]?
      = some (some b) := by
    have h0 := get_block_eq_some.mp hb
    rwa [new_flatten] at h0
  have hfold := foldl_visStep_blocks (interiorTriples width height depth)
    (baseWorld width height depth occ bt) (flatten_coords width height x y z)
  rw [← hW] at hfold
  rw [hfold] at hcell0
  split at hcell0
  · cases h0 : (mkBlocks width height depth occ bt)[flatten_coords width height x y z]? with
    | none =>
      rw [show (baseWorld width height depth occ bt).blocks
          = mkBlocks width height depth occ bt from rfl, h0] at hcell0
      cases hcell0
    | some ob =>
      rw [show (baseWorld width height depth occ bt).blocks
          = mkBlocks width height depth occ bt from rfl, h0] at hcell0
      cases ob with
      | none => cases hcell0
      | some b0 =>
        refine ⟨b0, rfl, Or.inr ?_⟩
        have h2 : some (some (mkInv b0)) = some (some b) := hcell0
        cases h2
        rfl
  · cases h0 : (mkBlocks width height depth occ bt)[flatten_coords width height x y z]? with
    | none =>
      rw [show (baseWorld width height depth occ bt).blocks
          = mkBlocks width height depth occ bt from rfl, h0] at hcell0
      cases hcell0
    | some ob =>
      rw [show (baseWorld width height depth occ bt).blocks
          = mkBlocks width height depth occ bt from rfl, h0] at hcell0
      cases ob with
      | none => cases hcell0
      | some b0 =>
        refine ⟨b0, rfl, Or.inl ?_⟩
        have h2 : some (some b0) = some (some b) := hcell0
        cases h2
        rfl

set_option maxRecDepth 4000 in
/-- C1: after `World::new` runs its one-shot visibility pass, an occupied cell
is invisible exactly when it is interior (`1 <= x < width-1`, likewise for `y`
and `z`) and all six face-adjacent cells are occupied; every other occupied
cell is visible.  In particular a fully solid 3×3×3 grid has exactly flat
index 13 invisible, and a fully solid 4×4×4 grid exactly flat indices
{21, 22, 25, 26, 37, 38, 41, 42}. -/
theorem visibility_pass_claim :
    (∀ (width height depth : Nat) (occ : Nat → Nat → Nat → Bool)
        (bt : Nat → Nat → Nat → BlockType) (x y z : Nat) (b : Block),
      x < width → y < height → z < depth →
      (World.new width height depth occ bt).get_block x y z = some b →
      (b.visible = false ↔
        ((1 ≤ x ∧ x < width - 1 ∧ 1 ≤ y ∧ y < height - 1 ∧ 1 ≤ z ∧ z < depth - 1) ∧
         (((World.new width height depth occ bt).get_block (x - 1) y z).isSome = true ∧
          ((World.new width height depth occ bt).get_block (x + 1) y z).isSome = true ∧
          ((World.new width height depth occ bt).get_block x y (z + 1)).isSome = true ∧
          ((World.new width height depth occ bt).get_block x y (z - 1)).isSome = true ∧
          ((World.new width height depth occ bt).get_block x (y + 1) z).isSome = true ∧
          ((World.new width height depth occ bt).get_block x (y - 1) z).isSome = true))))
    ∧ (World.new 3 3 3 occSolid btDirt).blocks.map (Option.map Block.visible)
        = (List.range 27).map (fun i => some (decide (i ≠ 13)))
    ∧ (World.new 4 4 4 occSolid btDirt).blocks.map (Option.map Block.visible)
        = (List.range 64).map (fun i => some (decide (i ∉ [21, 22, 25, 26, 37, 38, 41, 42]))) :=
  ⟨fun width height depth occ bt x y z b hx hy hz hb =>
      visibility_pass_general width height depth occ bt x y z b hx hy hz hb,
    by decide, by decide⟩

/-- Witness for C1: the centre cell of the solid 3×3×3 world, whose block is
invisible and whose interior/neighbour condition holds. -/
theorem visibility_pass_claim_witness :
    (({ position := ((1 : Int), -6, 1), rotation := (), block_type := BlockType.Dirt,
        visible := false } : Block).visible = false ↔
      ((1 ≤ 1 ∧ 1 < 3 - 1 ∧ 1 ≤ 1 ∧ 1 < 3 - 1 ∧ 1 ≤ 1 ∧ 1 < 3 - 1) ∧
       (((World.new 3 3 3 occSolid btDirt).get_block 0 1 1).isSome = true ∧
        ((World.new 3 3 3 occSolid btDirt).get_block 2 1 1).isSome = true ∧
        ((World.new 3 3 3 occSolid btDirt).get_block 1 1 2).isSome = true ∧
        ((World.new 3 3 3 occSolid btDirt).get_block 1 1 0).isSome = true ∧
        ((World.new 3 3 3 occSolid btDirt).get_block 1 2 1).isSome = true ∧
        ((World.new 3 3 3 occSolid btDirt).get_block 1 0 1).isSome = true))) :=
  visibility_pass_claim.1 3 3 3 occSolid btDirt 1 1 1
    { position := ((1 : Int), -6, 1), rotation := (), block_type := BlockType.Dirt,
      visible := false }
    (by decide) (by decide) (by decide) (by decide)

/-! ## C5: the `get_block` contract -/

/-- C5 counterexample: in a 1×1×2 solid world, `get_block(1, 0, 0)` has `x`
out of bounds (`x >= width`) yet returns a block, because the unchecked flat
index `flatten_coords(1,0,0) = 1` aliases the in-range cell of `(0, 0, 1)`. -/
theorem get_block_oob_counterexample :
    (World.new 1 1 2 occSolid btDirt).width = 1 ∧
    ((World.new 1 1 2 occSolid btDirt).get_block 1 0 0).isSome = true := by
  constructor
  · exact new_width ..
  · decide

/-- C5 (amended): `get_block` fails exactly when the flat index
`flatten_coords(x,y,z)` falls outside the storage (of length
`width*height*depth`) or the cell at that flat index is empty; on success it
returns the block stored at that flat index.  Out-of-bounds coordinates whose
flat index aliases an in-range cell are NOT rejected. -/
theorem get_block_contract (width height depth : Nat) (occ : Nat → Nat → Nat → Bool)
    (bt : Nat → Nat → Nat → BlockType) (x y z : Nat) :
    ((World.new width height depth occ bt).get_block x y z = none ↔
      (width * height * depth ≤ flatten_coords width height x y z ∨
       (World.new width height depth occ bt).blocks[flatten_coords width height x y z]?
         = some none))
    ∧ (∀ b : Block, (World.new width height depth occ bt).get_block x y z = some b ↔
        (World.new width height depth occ bt).blocks[flatten_coords width height x y z]?
          = some (some b)) := by
  constructor
  · unfold World.get_block
    rw [new_flatten]
    cases h : (World.new width height depth occ bt).blocks[flatten_coords width height x y z]? with
    | none =>
      simp only [true_iff]
      left
      have := List.getElem?_eq_none_iff.mp h
      rwa [new_length] at this
    | some ob =>
      cases ob with
      | none => simp
      | some b =>
        simp only [reduceCtorEq, false_iff]
        push_neg
        constructor
        · have hlt : flatten_coords width height x y z
              < (World.new width height depth occ bt).blocks.length := by
            by_contra hge
            rw [List.getElem?_eq_none_iff.mpr (by omega)] at h
            cases h
          rw [new_length] at hlt
          omega
        · intro hcontra
          cases hcontra
  · intro b
    rw [get_block_eq_some, new_flatten]

/-- Witness for C5 (amended): in the 1×1×2 solid world, `get_block(0,0,1)`
succeeds and returns the block stored at flat index 1. -/
theorem get_block_contract_witness :
    (World.new 1 1 2 occSolid btDirt).get_block 0 0 1
        = some { position := ((0 : Int), -6, 0), rotation := (), block_type := BlockType.Dirt,
                 visible := true } ↔
      (World.new 1 1 2 occSolid btDirt).blocks[flatten_coords 1 1 0 0 1]?
        = some (some { position := ((0 : Int), -6, 0), rotation := (),
                       block_type := BlockType.Dirt, visible := true }) :=
  (get_block_contract 1 1 2 occSolid btDirt 0 0 1).2
    { position := ((0 : Int), -6, 0), rotation := (), block_type := BlockType.Dirt,
      visible := true }

/-! ## C10: the stored grid is the coordinate transpose of the index map -/

/-- C10 counterexample: the claim quantifies over every `(x,y,z)` on which
`get_block` succeeds, but on the solid 2×2×2 world `get_block(2,0,0)` succeeds
(the flat index aliases) and returns position `(0, -5, 1)`, not the claimed
`(z, -5-x, y) = (0, -7, 0)`. -/
theorem position_transpose_counterexample :
    ((World.new 2 2 2 occSolid btDirt).get_block 2 0 0).isSome = true ∧
    ((World.new 2 2 2 occSolid btDirt).get_block 2 0 0).map Block.position
      ≠ some ((0 : Int), -5 - 2, 0) := by decide

/-- C10 (amended): restricted to in-bounds coordinates of a cubic world, a
successful `get_block(x,y,z)` returns the block generated at loop coordinates
`(z, y, x)`, whose position is `(z, -5 - x, y)` — not `(x, -5 - z, y)`. -/
theorem position_transpose (n : Nat) (occ : Nat → Nat → Nat → Bool)
    (bt : Nat → Nat → Nat → BlockType) (x y z : Nat)
    (hx : x < n) (hy : y < n) (hz : z < n) (b : Block)
    (hb : (World.new n n n occ bt).get_block x y z = some b) :
    b.position = ((z : Int), -5 - (x : Int), (y : Int)) := by
  obtain ⟨b0, hcell, hb0⟩ := new_get_block_some n n n occ bt x y z b hb
  have hidx : flatten_coords n n x y z = z * (n * n) + (y * n + x) := by
    unfold flatten_coords
    ring
  rw [hidx, mkBlocks_getElem n n n occ bt hz hy hx] at hcell
  have hpos : b.position = b0.position := by
    rcases hb0 with rfl | rfl
    · rfl
    · exact mkInv_position b0
  unfold genCell at hcell
  by_cases hocc : occ z y x
  · rw [if_pos hocc] at hcell
    have h2 : b0.position = ((z : Int), -5 - (x : Int), (y : Int)) := by
      cases hcell
      rfl
    rw [hpos, h2]
  · rw [if_neg hocc] at hcell
    cases hcell

/-- Witness for C10 (amended): the origin cell of the solid 1×1×1 world. -/
theorem position_transpose_witness :
    ({ position := ((0 : Int), -5, 0), rotation := (), block_type := BlockType.Dirt,
       visible := true } : Block).position = ((0 : Int), -5 - 0, 0) :=
  position_transpose 1 occSolid btDirt 0 0 0 (by decide) (by decide) (by decide)
    { position := ((0 : Int), -5, 0), rotation := (), block_type := BlockType.Dirt,
      visible := true }
    (by decide)

/-! ## C4: pack is not idempotent (the break test reads the stale rect.x) -/

/-- C4: on three 200×10 rects a first `pack()` places them at
`(0,0), (200,0), (0,10)`, but a second `pack()` on the unmodified set places
them at `(0,0), (0,10), (200,10)` — the second rect moves, because the break
test `x + rect.x + rect.w >= width` re-reads the position the first pack
assigned.  The spec's step (`if x + w >= atlas_width`) and its idempotence
property describe the intended behaviour; the source deviates from it. -/
theorem pack_not_idempotent :
    ((addAll TextureAtlas.newAtlas [(200, 10), (200, 10), (200, 10)]).pack.map
      fun a => a.rects.map fun p => (p.1.x, p.1.y, p.2))
      = some [((0 : Int), (0 : Int), (0 : Nat)), (200, 0, 1), (0, 10, 2)] ∧
    (((addAll TextureAtlas.newAtlas [(200, 10), (200, 10), (200, 10)]).pack.bind
      TextureAtlas.pack).map fun a => a.rects.map fun p => (p.1.x, p.1.y, p.2))
      = some [((0 : Int), (0 : Int), (0 : Nat)), (0, 10, 1), (200, 10, 2)] := by decide

/-! ## Registration-time shape of the rect list -/

theorem addAll_rects_mem : ∀ (l : List (Int × Int)) (a : TextureAtlas)
    (p : Rect × Nat), p ∈ (addAll a l).rects →
    p ∈ a.rects ∨ (p.1.x = 0 ∧ p.1.y = 0 ∧ (p.1.w, p.1.h) ∈ l) := by
  intro l
  induction l with
  | nil => intro a p hp; exact Or.inl hp
  | cons wh rest ih =>
    intro a p hp
    obtain ⟨w, h⟩ := wh
    rcases ih (a.add w h).1 p hp with hmem | ⟨h1, h2, h3⟩
    · unfold TextureAtlas.add at hmem
      rcases List.mem_append.mp hmem with hold | hnew
      · exact Or.inl hold
      · rcases List.mem_singleton.mp hnew with rfl
        exact Or.inr ⟨rfl, rfl, List.mem_cons_self ..⟩
    · exact Or.inr ⟨h1, h2, List.mem_cons_of_mem _ h3⟩

theorem addAll_rects_length : ∀ (l : List (Int × Int)) (a : TextureAtlas),
    (addAll a l).rects.length = a.rects.length + l.length := by
  intro l
  induction l with
  | nil => intro a; rfl
  | cons wh rest ih =>
    intro a
    obtain ⟨w, h⟩ := wh
    show (addAll (a.add w h).1 rest).rects.length = a.rects.length + (rest.length + 1)
    rw [ih]
    show (a.rects ++ [(({ x := 0, y := 0, w := w, h := h } : Rect), a.counter)]).length + rest.length
      = a.rects.length + (rest.length + 1)
    rw [List.length_append]
    simp only [List.length_cons, List.length_nil]
    omega

/-! ## C6 counterexample: a rect wider than the atlas distorts the height -/

/-- C6 counterexample: packing the single 600×10 rect computes height 20 (the
immediate break on the first rect adds a phantom empty shelf of height 10),
while the walk produces one shelf whose first rect has height 10. -/
theorem pack_height_counterexample :
    ((addAll TextureAtlas.newAtlas [(600, 10)]).pack.map TextureAtlas.height) = some 20 ∧
    ((shelves 512 (((addAll TextureAtlas.newAtlas [(600, 10)]).rects.insertionSort
        rectOrder).map (fun p => p.1))).map shelfHeadHeight).sum = 10 := by decide

/-! ## C3 counterexample: a rect wider than the atlas escapes the width bound -/

/-- C3 counterexample: the claim quantifies over every registered rect set,
but packing the single 600×10 rect places it at `x = 0` with
`x + w = 600 > 512`. -/
theorem pack_width_counterexample :
    ((addAll TextureAtlas.newAtlas [(600, 10)]).pack.map
      fun a => a.rects.map fun p => (p.1.x, p.1.x + p.1.w)) = some [((0 : Int), 600)] ∧
    ¬ ((600 : Int) ≤ 512) := by decide

/-! ## C3: packed rects are disjoint and inside the atlas width -/

/-- Placement rewrites only positions: widths, heights and handles survive in
order. -/
theorem placeRects_map_whd : ∀ (S : List (Rect × Nat)) (W x y maxH : Int),
    (placeRects W x y maxH S).1.map (fun p => (p.1.w, p.1.h, p.2))
      = S.map (fun p => (p.1.w, p.1.h, p.2)) := by
  intro S
  induction S with
  | nil => intro W x y maxH; rfl
  | cons p rest ih =>
    intro W x y maxH
    obtain ⟨r, hdl⟩ := p
    by_cases hbr : x + r.x + r.w ≥ W
    · show ((placeRects W x y maxH ((r, hdl) :: rest)).1.map fun p => (p.1.w, p.1.h, p.2)) = _
      rw [show placeRects W x y maxH ((r, hdl) :: rest)
          = (({ r with x := 0, y := y + maxH }, hdl)
              :: (placeRects W (0 + r.w) (y + maxH) r.h rest).1,
             (placeRects W (0 + r.w) (y + maxH) r.h rest).2) by
        simp only [placeRects, if_pos hbr]]
      rw [List.map_cons, ih]
      rfl
    · show ((placeRects W x y maxH ((r, hdl) :: rest)).1.map fun p => (p.1.w, p.1.h, p.2)) = _
      rw [show placeRects W x y maxH ((r, hdl) :: rest)
          = (({ r with x := x, y := y }, hdl)
              :: (placeRects W (x + r.w) y maxH rest).1,
             (placeRects W (x + r.w) y maxH rest).2) by
        simp only [placeRects, if_neg hbr]]
      rw [List.map_cons, ih]
      rfl

/-- Core invariants of the placement walk: with all rects starting at `x = 0`
and widths within `[0, W]`, every placement lands inside `[0, W)` horizontally
and no two placed rects overlap.  The third conjunct is the walk geometry used
to glue the induction: every placed rect is either vertically empty, on the
current shelf at or right of the cursor, or on a later shelf. -/
theorem placeRects_invariants :
    ∀ (S : List (Rect × Nat)) (W x y maxH : Int),
    List.Pairwise (fun p q => q.1.h ≤ p.1.h) S →
    (∀ p ∈ S, p.1.x = 0) →
    (∀ p ∈ S, 0 ≤ p.1.w ∧ p.1.w ≤ W) →
    (∀ p ∈ S, p.1.h ≤ maxH) →
    0 ≤ x →
    (∀ p ∈ (placeRects W x y maxH S).1, 0 ≤ p.1.x ∧ p.1.x + p.1.w ≤ W) ∧
    List.Pairwise (fun p q => ¬ p.1.overlaps q.1) (placeRects W x y maxH S).1 ∧
    (∀ p ∈ (placeRects W x y maxH S).1,
      p.1.h < 0 ∨ (p.1.y = y ∧ x ≤ p.1.x) ∨ y + maxH ≤ p.1.y) := by
  intro S
  induction S with
  | nil =>
    intro W x y maxH _ _ _ _ _
    refine ⟨?_, ?_, ?_⟩ <;> simp [placeRects]
  | cons hd rest ih =>
    intro W x y maxH hdesc hx0 hw hmax hxpos
    obtain ⟨r, hdl⟩ := hd
    have hrx : r.x = 0 := hx0 (r, hdl) (List.mem_cons_self ..)
    have hrw : 0 ≤ r.w ∧ r.w ≤ W := hw (r, hdl) (List.mem_cons_self ..)
    have hrh : r.h ≤ maxH := hmax (r, hdl) (List.mem_cons_self ..)
    have hdc := List.pairwise_cons.mp hdesc
    by_cases hbr : x + r.x + r.w ≥ W
    · -- the rect starts a new shelf
      have heq : placeRects W x y maxH ((r, hdl) :: rest)
          = (({ r with x := 0, y := y + maxH }, hdl)
              :: (placeRects W (0 + r.w) (y + maxH) r.h rest).1,
             (placeRects W (0 + r.w) (y + maxH) r.h rest).2) := by
        simp only [placeRects, if_pos hbr]
      obtain ⟨ha2, hb2, hc2⟩ := ih W (0 + r.w) (y + maxH) r.h hdc.2
        (fun p hp => hx0 p (List.mem_cons_of_mem _ hp))
        (fun p hp => hw p (List.mem_cons_of_mem _ hp))
        (fun p hp => hdc.1 p hp)
        (by omega)
      have hH : ∀ q ∈ (placeRects W (0 + r.w) (y + maxH) r.h rest).1, q.1.h ≤ r.h := by
        intro q hq
        have hmem : (q.1.w, q.1.h, q.2)
            ∈ (placeRects W (0 + r.w) (y + maxH) r.h rest).1.map
              (fun p => (p.1.w, p.1.h, p.2)) := List.mem_map_of_mem _ hq
        rw [placeRects_map_whd] at hmem
        obtain ⟨p2, hp2, heq2⟩ := List.mem_map.mp hmem
        have e2 : p2.1.h = q.1.h := congrArg (fun t : Int × Int × Nat => t.2.1) heq2
        have e3 : p2.1.h ≤ r.h := hdc.1 p2 hp2
        omega
      rw [heq]
      refine ⟨?_, ?_, ?_⟩
      · intro q hq
        rcases List.mem_cons.mp hq with rfl | hq2
        · show (0 : Int) ≤ 0 ∧ (0 : Int) + r.w ≤ W
          omega
        · exact ha2 q hq2
      · refine List.pairwise_cons.mpr ⟨?_, hb2⟩
        intro q hq hov
        have hov1 : max (0 : Int) q.1.x < min ((0 : Int) + r.w) (q.1.x + q.1.w) := hov.1
        have hov2 : max (y + maxH) q.1.y < min ((y + maxH) + r.h) (q.1.y + q.1.h) := hov.2
        rcases hc2 q hq with hqh | ⟨hqy, hqx⟩ | hqy
        · have t1 := min_le_right ((y + maxH) + r.h) (q.1.y + q.1.h)
          have t2 := le_max_right (y + maxH) q.1.y
          linarith
        · have t1 := min_le_left ((0 : Int) + r.w) (q.1.x + q.1.w)
          have t2 := le_max_right (0 : Int) q.1.x
          linarith
        · have t1 := min_le_left ((y + maxH) + r.h) (q.1.y + q.1.h)
          have t2 := le_max_right (y + maxH) q.1.y
          linarith
      · intro q hq
        rcases List.mem_cons.mp hq with rfl | hq2
        · right; right
          show y + maxH ≤ y + maxH
          omega
        · rcases hc2 q hq2 with hqh | ⟨hqy, hqx⟩ | hqy
          · exact Or.inl hqh
          · right; right; omega
          · rcases le_or_lt 0 r.h with hpos | hneg
            · right; right; omega
            · exact Or.inl (by have := hH q hq2; omega)
    · -- the rect continues the current shelf
      have heq : placeRects W x y maxH ((r, hdl) :: rest)
          = (({ r with x := x, y := y }, hdl)
              :: (placeRects W (x + r.w) y maxH rest).1,
             (placeRects W (x + r.w) y maxH rest).2) := by
        simp only [placeRects, if_neg hbr]
      obtain ⟨ha2, hb2, hc2⟩ := ih W (x + r.w) y maxH hdc.2
        (fun p hp => hx0 p (List.mem_cons_of_mem _ hp))
        (fun p hp => hw p (List.mem_cons_of_mem _ hp))
        (fun p hp => hmax p (List.mem_cons_of_mem _ hp))
        (by omega)
      rw [heq]
      refine ⟨?_, ?_, ?_⟩
      · intro q hq
        rcases List.mem_cons.mp hq with rfl | hq2
        · show 0 ≤ x ∧ x + r.w ≤ W
          omega
        · exact ha2 q hq2
      · refine List.pairwise_cons.mpr ⟨?_, hb2⟩
        intro q hq hov
        have hov1 : max x q.1.x < min (x + r.w) (q.1.x + q.1.w) := hov.1
        have hov2 : max y q.1.y < min (y + r.h) (q.1.y + q.1.h) := hov.2
        rcases hc2 q hq with hqh | ⟨hqy, hqx⟩ | hqy
        · have t1 := min_le_right (y + r.h) (q.1.y + q.1.h)
          have t2 := le_max_right y q.1.y
          linarith
        · have t1 := min_le_left (x + r.w) (q.1.x + q.1.w)
          have t2 := le_max_right x q.1.x
          linarith
        · have t1 := min_le_left (y + r.h) (q.1.y + q.1.h)
          have t2 := le_max_right y q.1.y
          linarith
      · intro q hq
        rcases List.mem_cons.mp hq with rfl | hq2
        · right; left
          exact ⟨rfl, le_refl x⟩
        · rcases hc2 q hq2 with hqh | ⟨hqy, hqx⟩ | hqy
          · exact Or.inl hqh
          · right; left; exact ⟨hqy, by omega⟩
          · right; right; exact hqy

/-- The atlas that `pack` produces from `a`, given the sorted rect list. -/
def packedAtlas (a : TextureAtlas) (first : Rect × Nat) (rest : List (Rect × Nat)) :
    TextureAtlas :=
  { a with
    width := 512,
    rects := (placeRects 512 0 0 first.1.h (first :: rest)).1,
    height := (placeRects 512 0 0 first.1.h (first :: rest)).2.1
      + (placeRects 512 0 0 first.1.h (first :: rest)).2.2 }

/-- Characterisation of `pack` on a non-empty rect set via its sorted list. -/
theorem pack_eq_of_sorted (a : TextureAtlas) (first : Rect × Nat) (rest : List (Rect × Nat))
    (hs : a.rects.insertionSort rectOrder = first :: rest) :
    a.pack = some (packedAtlas a first rest) := by
  unfold TextureAtlas.pack packedAtlas
  rw [hs]

theorem sorted_of_addAll_ne_nil (l : List (Int × Int)) (hl : l ≠ []) :
    ∃ first rest, (addAll TextureAtlas.newAtlas l).rects.insertionSort rectOrder
      = first :: rest := by
  cases hs : (addAll TextureAtlas.newAtlas l).rects.insertionSort rectOrder with
  | nil =>
    exfalso
    have hlen : (addAll TextureAtlas.newAtlas l).rects.length = l.length := by
      rw [addAll_rects_length]
      simp [TextureAtlas.newAtlas]
    have h0 : ((addAll TextureAtlas.newAtlas l).rects.insertionSort rectOrder).length = 0 := by
      rw [hs]; rfl
    rw [List.length_insertionSort, hlen] at h0
    exact hl (List.length_eq_zero.mp h0)
  | cons first rest => exact ⟨first, rest, rfl⟩

/-- Every element of the sorted list of a freshly registered atlas is an added
rect: position `(0,0)` and dimensions from the registration list. -/
theorem sorted_mem_shape (l : List (Int × Int)) (p : Rect × Nat)
    (hp : p ∈ (addAll TextureAtlas.newAtlas l).rects.insertionSort rectOrder) :
    p.1.x = 0 ∧ p.1.y = 0 ∧ (p.1.w, p.1.h) ∈ l := by
  have hp2 : p ∈ (addAll TextureAtlas.newAtlas l).rects :=
    (List.perm_insertionSort rectOrder _).mem_iff.mp hp
  rcases addAll_rects_mem l TextureAtlas.newAtlas p hp2 with hmem | h
  · cases hmem
  · exact h

/-- C3 (amended): for every non-empty registration list whose widths all lie
in `[0, 512]`, after the first `pack()` the placed rects are pairwise
non-overlapping and every rect satisfies `0 <= x` and `x + w <= 512`.  (A rect
wider than the atlas makes the width bound fail, see the counterexample.) -/
theorem pack_no_overlap (l : List (Int × Int)) (hl : l ≠ [])
    (hw : ∀ wh ∈ l, 0 ≤ wh.1 ∧ wh.1 ≤ 512) (a2 : TextureAtlas)
    (hpack : (addAll TextureAtlas.newAtlas l).pack = some a2) :
    List.Pairwise (fun p q => ¬ p.1.overlaps q.1) a2.rects ∧
    (∀ p ∈ a2.rects, 0 ≤ p.1.x ∧ p.1.x + p.1.w ≤ 512) := by
  obtain ⟨first, rest, hs⟩ := sorted_of_addAll_ne_nil l hl
  rw [pack_eq_of_sorted _ first rest hs] at hpack
  have ha2 : a2.rects = (placeRects 512 0 0 first.1.h (first :: rest)).1 := by
    cases hpack
    rfl
  have hdesc : List.Pairwise (fun p q : Rect × Nat => q.1.h ≤ p.1.h) (first :: rest) := by
    have hsort := List.sorted_insertionSort rectOrder
      (addAll TextureAtlas.newAtlas l).rects
    rw [hs] at hsort
    exact hsort
  have hshape : ∀ p ∈ (first :: rest : List (Rect × Nat)),
      p.1.x = 0 ∧ p.1.y = 0 ∧ (p.1.w, p.1.h) ∈ l := by
    intro p hp
    exact sorted_mem_shape l p (hs ▸ hp)
  obtain ⟨hA, hB, -⟩ := placeRects_invariants (first :: rest) 512 0 0 first.1.h
    hdesc
    (fun p hp => (hshape p hp).1)
    (fun p hp => by
      have h3 := (hshape p hp).2.2
      have := hw (p.1.w, p.1.h) h3
      exact ⟨this.1, this.2⟩)
    (fun p hp => by
      rcases List.mem_cons.mp hp with rfl | hp2
      · exact le_refl _
      · exact (List.pairwise_cons.mp hdesc).1 p hp2)
    (le_refl 0)
  rw [ha2]
  exact ⟨hB, hA⟩

/-- The packed atlas of the spec's three-rect example `[(10,30),(20,10),(15,20)]`. -/
def examplePacked : TextureAtlas :=
  { counter := 3,
    rects := [({ x := 0, y := 0, w := 10, h := 30 }, 0),
              ({ x := 10, y := 0, w := 15, h := 20 }, 2),
              ({ x := 25, y := 0, w := 20, h := 10 }, 1)],
    width := 512,
    height := 30 }

/-- Witness for C3 (amended): the spec's own three-rect example. -/
theorem pack_no_overlap_witness :
    List.Pairwise (fun p q : Rect × Nat => ¬ p.1.overlaps q.1) examplePacked.rects ∧
    (∀ p ∈ examplePacked.rects, 0 ≤ p.1.x ∧ p.1.x + p.1.w ≤ 512) :=
  pack_no_overlap [(10, 30), (20, 10), (15, 20)] (by decide) (by decide) examplePacked
    (by decide)

/-! ## C6: the packed height is the sum of shelf heights -/

/-- The total height the walk accumulates from its break points (code-side
break condition, including the stale `rect.x`). -/
def breakHeights (W : Int) : Int → List (Rect × Nat) → Int
  | _, [] => 0
  | x, (r, _) :: rest =>
    if x + r.x + r.w ≥ W then r.h + breakHeights W (0 + r.w) rest
    else breakHeights W (x + r.w) rest

/-- Spec-side break accumulation (`x + w >= atlas_width`, no stale position). -/
def specBreakHeights (W : Int) : Int → List Rect → Int
  | _, [] => 0
  | x, r :: rest =>
    if x + r.w ≥ W then r.h + specBreakHeights W r.w rest
    else specBreakHeights W (x + r.w) rest

theorem placeRects_final_height : ∀ (S : List (Rect × Nat)) (W x y maxH : Int),
    (placeRects W x y maxH S).2.1 + (placeRects W x y maxH S).2.2
      = y + maxH + breakHeights W x S := by
  intro S
  induction S with
  | nil =>
    intro W x y maxH
    show y + maxH = y + maxH + breakHeights W x []
    show y + maxH = y + maxH + 0
    omega
  | cons hd rest ih =>
    intro W x y maxH
    obtain ⟨r, hdl⟩ := hd
    by_cases hbr : x + r.x + r.w ≥ W
    · rw [show placeRects W x y maxH ((r, hdl) :: rest)
          = (({ r with x := 0, y := y + maxH }, hdl)
              :: (placeRects W (0 + r.w) (y + maxH) r.h rest).1,
             (placeRects W (0 + r.w) (y + maxH) r.h rest).2) by
        simp only [placeRects, if_pos hbr]]
      rw [show breakHeights W x ((r, hdl) :: rest)
          = r.h + breakHeights W (0 + r.w) rest by
        simp only [breakHeights, if_pos hbr]]
      show (placeRects W (0 + r.w) (y + maxH) r.h rest).2.1
          + (placeRects W (0 + r.w) (y + maxH) r.h rest).2.2
        = y + maxH + (r.h + breakHeights W (0 + r.w) rest)
      have := ih W (0 + r.w) (y + maxH) r.h
      omega
    · rw [show placeRects W x y maxH ((r, hdl) :: rest)
          = (({ r with x := x, y := y }, hdl)
              :: (placeRects W (x + r.w) y maxH rest).1,
             (placeRects W (x + r.w) y maxH rest).2) by
        simp only [placeRects, if_neg hbr]]
      rw [show breakHeights W x ((r, hdl) :: rest)
          = breakHeights W (x + r.w) rest by
        simp only [breakHeights, if_neg hbr]]
      show (placeRects W (x + r.w) y maxH rest).2.1
          + (placeRects W (x + r.w) y maxH rest).2.2
        = y + maxH + breakHeights W (x + r.w) rest
      exact ih W (x + r.w) y maxH

theorem breakHeights_eq_spec : ∀ (S : List (Rect × Nat)) (W x : Int),
    (∀ p ∈ S, p.1.x = 0) →
    breakHeights W x S = specBreakHeights W x (S.map (fun p => p.1)) := by
  intro S
  induction S with
  | nil => intro W x _; rfl
  | cons hd rest ih =>
    intro W x hx0
    obtain ⟨r, hdl⟩ := hd
    have hrx : r.x = 0 := hx0 (r, hdl) (List.mem_cons_self ..)
    have hcond : (x + r.x + r.w ≥ W) ↔ (x + r.w ≥ W) := by rw [hrx]; omega
    rw [List.map_cons]
    by_cases hbr : x + r.w ≥ W
    · rw [show breakHeights W x ((r, hdl) :: rest)
          = r.h + breakHeights W (0 + r.w) rest by
        simp only [breakHeights, if_pos (hcond.mpr hbr)]]
      rw [show specBreakHeights W x (r :: rest.map (fun p => p.1))
          = r.h + specBreakHeights W r.w (rest.map (fun p => p.1)) by
        simp only [specBreakHeights, if_pos hbr]]
      rw [ih W (0 + r.w) (fun p hp => hx0 p (List.mem_cons_of_mem _ hp))]
      rw [zero_add]
    · rw [show breakHeights W x ((r, hdl) :: rest)
          = breakHeights W (x + r.w) rest by
        simp only [breakHeights, if_neg (fun h => hbr (hcond.mp h))]]
      rw [show specBreakHeights W x (r :: rest.map (fun p => p.1))
          = specBreakHeights W (x + r.w) (rest.map (fun p => p.1)) by
        simp only [specBreakHeights, if_neg hbr]]
      exact ih W (x + r.w) (fun p hp => hx0 p (List.mem_cons_of_mem _ hp))

theorem shelfHeadHeight_append_last (cur : List Rect) (r : Rect) (hcur : cur ≠ []) :
    shelfHeadHeight (cur ++ [r]) = shelfHeadHeight cur := by
  cases cur with
  | nil => exact absurd rfl hcur
  | cons a t => rfl

theorem shelvesAux_sum : ∀ (rest : List Rect) (W x : Int) (cur : List Rect),
    cur ≠ [] →
    ((shelvesAux W x cur rest).map shelfHeadHeight).sum
      = shelfHeadHeight cur.reverse + specBreakHeights W x rest := by
  intro rest
  induction rest with
  | nil =>
    intro W x cur _
    show (List.map shelfHeadHeight [cur.reverse]).sum = shelfHeadHeight cur.reverse + 0
    simp
  | cons r rest ih =>
    intro W x cur hcur
    by_cases hbr : x + r.w ≥ W
    · rw [show shelvesAux W x cur (r :: rest)
          = cur.reverse :: shelvesAux W r.w [r] rest by
        simp only [shelvesAux, if_pos hbr]]
      rw [show specBreakHeights W x (r :: rest)
          = r.h + specBreakHeights W r.w rest by
        simp only [specBreakHeights, if_pos hbr]]
      rw [List.map_cons, List.sum_cons, ih W r.w [r] (by simp)]
      show shelfHeadHeight cur.reverse + (shelfHeadHeight [r] + specBreakHeights W r.w rest)
        = shelfHeadHeight cur.reverse + (r.h + specBreakHeights W r.w rest)
      rfl
    · rw [show shelvesAux W x cur (r :: rest)
          = shelvesAux W (x + r.w) (r :: cur) rest by
        simp only [shelvesAux, if_neg hbr]]
      rw [show specBreakHeights W x (r :: rest)
          = specBreakHeights W (x + r.w) rest by
        simp only [specBreakHeights, if_neg hbr]]
      rw [ih W (x + r.w) (r :: cur) (by simp)]
      rw [show (r :: cur).reverse = cur.reverse ++ [r] by simp]
      rw [shelfHeadHeight_append_last _ _ (by
        intro hnil
        exact hcur (by simpa using congrArg List.reverse hnil))]

/-- C6 (amended): for every non-empty registration list whose widths are all
below 512 (so the first sorted rect opens a real shelf rather than forcing an
immediate break), the packed `height` equals the final `y + max_h` of the
placement walk, which equals the sum over the walk's shelves of the height of
each shelf's first rect. -/
theorem pack_height_shelf_sum (l : List (Int × Int)) (hl : l ≠ [])
    (hwlt : ∀ wh ∈ l, wh.1 < 512) (a2 : TextureAtlas)
    (hpack : (addAll TextureAtlas.newAtlas l).pack = some a2) :
    a2.height
      = (placeRects 512 0 0
          ((((addAll TextureAtlas.newAtlas l).rects.insertionSort rectOrder).map
              (fun p => p.1.h)).head?.getD 0)
          ((addAll TextureAtlas.newAtlas l).rects.insertionSort rectOrder)).2.1
        + (placeRects 512 0 0
          ((((addAll TextureAtlas.newAtlas l).rects.insertionSort rectOrder).map
              (fun p => p.1.h)).head?.getD 0)
          ((addAll TextureAtlas.newAtlas l).rects.insertionSort rectOrder)).2.2
    ∧ a2.height
      = ((shelves 512 (((addAll TextureAtlas.newAtlas l).rects.insertionSort rectOrder).map
          (fun p => p.1))).map shelfHeadHeight).sum := by
  obtain ⟨first, rest, hs⟩ := sorted_of_addAll_ne_nil l hl
  rw [pack_eq_of_sorted _ first rest hs] at hpack
  have ha2 : a2 = packedAtlas (addAll TextureAtlas.newAtlas l) first rest := by
    cases hpack; rfl
  have hheight : a2.height = (placeRects 512 0 0 first.1.h (first :: rest)).2.1
      + (placeRects 512 0 0 first.1.h (first :: rest)).2.2 := by
    rw [ha2]; rfl
  have hshape : ∀ p ∈ (first :: rest : List (Rect × Nat)),
      p.1.x = 0 ∧ p.1.y = 0 ∧ (p.1.w, p.1.h) ∈ l := by
    intro p hp
    exact sorted_mem_shape l p (hs ▸ hp)
  constructor
  · rw [hs]
    rw [show (((first :: rest : List (Rect × Nat)).map (fun p => p.1.h)).head?.getD 0)
        = first.1.h from rfl]
    exact hheight
  · rw [hs, List.map_cons]
    have hfx : first.1.x = 0 := (hshape first (List.mem_cons_self ..)).1
    have hfw : first.1.w < 512 :=
      (hwlt (first.1.w, first.1.h) (hshape first (List.mem_cons_self ..)).2.2)
    rw [show shelves 512 (first.1 :: rest.map (fun p => p.1))
        = shelvesAux 512 first.1.w [first.1] (rest.map (fun p => p.1)) from rfl]
    rw [shelvesAux_sum _ 512 first.1.w [first.1] (by simp)]
    rw [show shelfHeadHeight ([first.1] : List Rect).reverse = first.1.h from rfl]
    rw [hheight, placeRects_final_height]
    rw [show breakHeights 512 0 (first :: rest)
        = breakHeights 512 (0 + first.1.w) rest by
      simp only [breakHeights]
      rw [if_neg (by omega)]]
    rw [breakHeights_eq_spec rest 512 (0 + first.1.w)
      (fun p hp => (hshape p (List.mem_cons_of_mem _ hp)).1)]
    simp only [zero_add]

/-- Witness for C6 (amended): the spec's three-rect example, whose single
shelf has head height 30 and packed height 30. -/
theorem pack_height_shelf_sum_witness :
    examplePacked.height
      = (placeRects 512 0 0
          ((((addAll TextureAtlas.newAtlas [(10, 30), (20, 10), (15, 20)]).rects.insertionSort
              rectOrder).map (fun p => p.1.h)).head?.getD 0)
          ((addAll TextureAtlas.newAtlas
            [(10, 30), (20, 10), (15, 20)]).rects.insertionSort rectOrder)).2.1
        + (placeRects 512 0 0
          ((((addAll TextureAtlas.newAtlas [(10, 30), (20, 10), (15, 20)]).rects.insertionSort
              rectOrder).map (fun p => p.1.h)).head?.getD 0)
          ((addAll TextureAtlas.newAtlas
            [(10, 30), (20, 10), (15, 20)]).rects.insertionSort rectOrder)).2.2
    ∧ examplePacked.height
      = ((shelves 512 (((addAll TextureAtlas.newAtlas
          [(10, 30), (20, 10), (15, 20)]).rects.insertionSort rectOrder).map
          (fun p => p.1))).map shelfHeadHeight).sum :=
  pack_height_shelf_sum [(10, 30), (20, 10), (15, 20)] (by decide) (by decide)
    examplePacked (by decide)

/-! ## C7: get_rect preserves registered dimensions across packs -/

theorem find?_eq_head?_filter {α : Type} (p : α → Bool) (l : List α) :
    l.find? p = (l.filter p).head? := by
  induction l with
  | nil => rfl
  | cons a l ih =>
    cases h : p a with
    | false =>
      rw [List.find?_cons_of_neg _ (by rw [h]; exact Bool.false_ne_true),
        List.filter_cons_of_neg (by rw [h]; exact Bool.false_ne_true), ih]
    | true => rw [List.find?_cons_of_pos _ h, List.filter_cons_of_pos h]; rfl

/-- What a successful `pack` does to the counter and to the
width/height/handle shadow of the rect list. -/
theorem pack_shadow (a a3 : TextureAtlas) (hpack : a.pack = some a3) :
    a3.counter = a.counter ∧
    a3.rects.map (fun p => (p.1.w, p.1.h, p.2))
      = (a.rects.insertionSort rectOrder).map (fun p => (p.1.w, p.1.h, p.2)) := by
  cases hs : a.rects.insertionSort rectOrder with
  | nil =>
    exfalso
    have : a.pack = none := by
      unfold TextureAtlas.pack
      rw [hs]
    rw [this] at hpack
    cases hpack
  | cons first rest =>
    rw [pack_eq_of_sorted a first rest hs] at hpack
    have ha3 : a3 = packedAtlas a first rest := by cases hpack; rfl
    subst ha3
    refine ⟨rfl, ?_⟩
    show (placeRects 512 0 0 first.1.h (first :: rest)).1.map (fun p => (p.1.w, p.1.h, p.2)) = _
    rw [placeRects_map_whd]

theorem runOps_filter : ∀ (ops : List AtlasOp) (a : TextureAtlas) (dims : List (Int × Int)),
    a.counter = dims.length →
    (∀ k, ((a.rects.map (fun p => (p.1.w, p.1.h, p.2))).filter (fun t => t.2.2 == k))
      = ((dims[k]?).map (fun d => (d.1, d.2, k))).toList) →
    ∀ a2, runOps a ops = some a2 →
    (a2.counter = (dims ++ opDims ops).length ∧
     ∀ k, ((a2.rects.map (fun p => (p.1.w, p.1.h, p.2))).filter (fun t => t.2.2 == k))
       = (((dims ++ opDims ops)[k]?).map (fun d => (d.1, d.2, k))).toList) := by
  intro ops
  induction ops with
  | nil =>
    intro a dims hcnt hfil a2 hrun
    have ha2 : a2 = a := by
      have h2 : some a = some a2 := hrun
      cases h2
      rfl
    subst ha2
    rw [show opDims [] = [] from rfl, List.append_nil]
    exact ⟨hcnt, hfil⟩
  | cons op rest ih =>
    intro a dims hcnt hfil a2 hrun
    cases op with
    | add w h =>
      have hstep := ih (a.add w h).1 (dims ++ [(w, h)]) ?_ ?_ a2 hrun
      · rw [show (dims ++ [(w, h)]) ++ opDims rest = dims ++ opDims (AtlasOp.add w h :: rest) by
          rw [List.append_assoc]; rfl] at hstep
        exact hstep
      · show a.counter + 1 = (dims ++ [(w, h)]).length
        rw [List.length_append, hcnt]
        rfl
      · intro k
        show (((a.rects ++ [(({ x := 0, y := 0, w := w, h := h } : Rect), a.counter)]).map
            (fun p => (p.1.w, p.1.h, p.2))).filter (fun t => t.2.2 == k))
          = (((dims ++ [(w, h)])[k]?).map (fun d => (d.1, d.2, k))).toList
        rw [List.map_append, List.filter_append, hfil k]
        rcases lt_trichotomy k dims.length with hk | hk | hk
        · rw [List.getElem?_append_left hk]
          have hne : (a.counter == k) = false := by
            rw [hcnt]
            exact beq_eq_false_iff_ne.mpr (by omega)
          show _ ++ (List.filter _ [(w, h, a.counter)]) = _
          rw [show List.filter (fun t : Int × Int × Nat => t.2.2 == k) [(w, h, a.counter)]
              = [] by simp [List.filter, hne]]
          rw [List.append_nil]
        · subst hk
          have hnone : dims[dims.length]? = none := by
            rw [List.getElem?_eq_none_iff]
          rw [hnone, List.getElem?_concat_length]
          rw [show List.filter (fun t : Int × Int × Nat => t.2.2 == dims.length)
              (List.map (fun p => (p.1.w, p.1.h, p.2))
                [(({ x := 0, y := 0, w := w, h := h } : Rect), a.counter)])
              = [(w, h, a.counter)] by
            simp [List.filter, hcnt]]
          rw [hcnt]
          simp
        · have hnone : dims[k]? = none := by
            rw [List.getElem?_eq_none_iff]; omega
          have hnone2 : (dims ++ [(w, h)])[k]? = none := by
            rw [List.getElem?_eq_none_iff, List.length_append]
            simpa using hk
          rw [hnone, hnone2]
          have hne : (a.counter == k) = false := by
            rw [hcnt]
            exact beq_eq_false_iff_ne.mpr (by omega)
          rw [show List.filter (fun t : Int × Int × Nat => t.2.2 == k)
              (List.map (fun p => (p.1.w, p.1.h, p.2))
                [(({ x := 0, y := 0, w := w, h := h } : Rect), a.counter)])
              = [] by simp [List.filter, hne]]
          rfl
    | pack =>
      have hbind : (a.pack.bind fun a3 => runOps a3 rest) = some a2 := hrun
      obtain ⟨a3, hpack, hrest⟩ := Option.bind_eq_some.mp hbind
      obtain ⟨hcnt3, hshadow⟩ := pack_shadow a a3 hpack
      have hstep := ih a3 dims (by rw [hcnt3, hcnt]) ?_ a2 hrest
      · exact hstep
      · intro k
        rw [hshadow]
        have hperm : ((a.rects.insertionSort rectOrder).map
            (fun p => (p.1.w, p.1.h, p.2))).Perm (a.rects.map (fun p => (p.1.w, p.1.h, p.2))) :=
          (List.perm_insertionSort rectOrder a.rects).map _
        have hpermf := hperm.filter (fun t => t.2.2 == k)
        rw [hfil k] at hpermf
        cases hd : dims[k]? with
        | none =>
          rw [hd] at hpermf
          exact List.Perm.eq_nil (by simpa using hpermf)
        | some d =>
          rw [hd] at hpermf
          exact List.perm_singleton.mp (by simpa using hpermf)

/-- C7: for every sequence of registrations and (non-panicking) repacks, a
handle issued by the `k`-th `add` resolves through `get_rect` to a pair whose
rect carries exactly the registered width and height and whose stored handle
is `k`, no matter how many `pack()` calls intervened; a handle never issued
resolves to `none`. -/
theorem get_rect_preserves_dims (ops : List AtlasOp) (a2 : TextureAtlas)
    (hrun : runOps TextureAtlas.newAtlas ops = some a2) (k : Nat) :
    (a2.get_rect k).map (fun p => (p.1.w, p.1.h, p.2))
      = ((opDims ops)[k]?).map (fun d => (d.1, d.2, k)) := by
  obtain ⟨-, hfil⟩ := runOps_filter ops TextureAtlas.newAtlas [] rfl
    (fun k2 => rfl) a2 hrun
  have hfil2 := hfil k
  rw [show (([] : List (Int × Int)) ++ opDims ops) = opDims ops from rfl] at hfil2
  show (a2.rects.find? (fun p => p.2 == k)).map (fun p => (p.1.w, p.1.h, p.2)) = _
  have hmapfind : ((a2.rects.map (fun p => (p.1.w, p.1.h, p.2))).find?
      (fun t => t.2.2 == k))
      = (a2.rects.find? (fun p => p.2 == k)).map (fun p => (p.1.w, p.1.h, p.2)) := by
    rw [List.find?_map]
    rfl
  rw [← hmapfind, find?_eq_head?_filter, hfil2]
  cases h : (opDims ops)[k]? with
  | none => rfl
  | some d => rfl

/-- The atlas reached by registering one 7×9 rect and packing twice. -/
def exampleSingle : TextureAtlas :=
  { counter := 1,
    rects := [({ x := 0, y := 0, w := 7, h := 9 }, 0)],
    width := 512,
    height := 9 }

/-- Witness for C7: register a 7×9 rect, pack twice; handle 0 resolves to the
7×9 rect, handle 1 to nothing. -/
theorem get_rect_preserves_dims_witness :
    ((exampleSingle.get_rect 0).map (fun p => (p.1.w, p.1.h, p.2))
      = ((opDims [AtlasOp.add 7 9, AtlasOp.pack, AtlasOp.pack])[0]?).map
          (fun d => (d.1, d.2, 0)))
    ∧ ((exampleSingle.get_rect 1).map (fun p => (p.1.w, p.1.h, p.2))
      = ((opDims [AtlasOp.add 7 9, AtlasOp.pack, AtlasOp.pack])[1]?).map
          (fun d => (d.1, d.2, 1))) :=
  ⟨get_rect_preserves_dims [AtlasOp.add 7 9, AtlasOp.pack, AtlasOp.pack] exampleSingle
      (by decide) 0,
   get_rect_preserves_dims [AtlasOp.add 7 9, AtlasOp.pack, AtlasOp.pack] exampleSingle
      (by decide) 1⟩

/-! ## C8: draw batching dedups on geometry bytes -/

/-- The renderer state after registering fresh geometry with one instance. -/
def afterFirstDraw (s : Renderer) (d1 : DrawableData) (r1 : Rect) : Renderer :=
  { s with objects := s.objects ++ [(d1.object, [mkInstance d1 r1])] }

/-- The renderer state after queueing a second instance of the same geometry. -/
def afterSecondDraw (s : Renderer) (d1 d2 : DrawableData) (r1 r2 : Rect) : Renderer :=
  { s with objects := s.objects ++ [(d1.object, [mkInstance d1 r1, mkInstance d2 r2])] }

/-- C8: with all referenced texture handles registered, queueing an entity
whose geometry bytes are not yet present registers one new `Object` holding
exactly that instance, and queueing a second entity with byte-identical
geometry but a different transform appends its record to that same `Object`
(in submission order) instead of creating a second one: afterwards exactly one
`Object` is keyed by those bytes and it holds the two records. -/
theorem queue_draw_batches (s : Renderer) (d1 d2 : DrawableData)
    (r1 r2 : Rect) (n1 n2 : Nat)
    (hfresh : s.objects.find? (fun p => p.1 == d1.object) = none)
    (hgv : d2.vbytes = d1.vbytes) (hgi : d2.indices = d1.indices)
    (_htr : d2.raw ≠ d1.raw)
    (hrect1 : s.texture_atlas.get_rect d1.texture = some (r1, n1))
    (hrect2 : s.texture_atlas.get_rect d2.texture = some (r2, n2)) :
    s.queue_draw d1 = some (afterFirstDraw s d1 r1) ∧
    (afterFirstDraw s d1 r1).queue_draw d2 = some (afterSecondDraw s d1 d2 r1 r2) ∧
    (((afterSecondDraw s d1 d2 r1 r2).objects.filter
        (fun p => p.1 == d1.object)).map (fun p => p.2))
      = [[mkInstance d1 r1, mkInstance d2 r2]] := by
  have hkey : d2.object = d1.object := by
    unfold DrawableData.object
    rw [hgv, hgi]
  have hnotmem : ∀ x ∈ s.objects, ¬ (x.1 == d1.object) = true := List.find?_eq_none.mp hfresh
  have h1 : s.queue_draw d1 = some (afterFirstDraw s d1 r1) := by
    unfold Renderer.queue_draw
    rw [hrect1]
    show (if (s.objects.find? fun p => p.1 == d1.object).isSome then _ else _) = _
    rw [hfresh]
    rfl
  refine ⟨h1, ?_, ?_⟩
  · have hfind : ((afterFirstDraw s d1 r1).objects.find? fun p => p.1 == d1.object)
        = some (d1.object, [mkInstance d1 r1]) := by
      show ((s.objects ++ [(d1.object, [mkInstance d1 r1])]).find?
        fun p => p.1 == d1.object) = _
      rw [List.find?_append, hfresh]
      simp
    unfold Renderer.queue_draw
    rw [show (afterFirstDraw s d1 r1).texture_atlas.get_rect d2.texture
        = some (r2, n2) from hrect2]
    show (if ((afterFirstDraw s d1 r1).objects.find? fun p => p.1 == d2.object).isSome
        then _ else _) = _
    rw [hkey, hfind]
    show some ({ afterFirstDraw s d1 r1 with
        objects := (afterFirstDraw s d1 r1).objects.map fun p =>
          if p.1 == d1.object then (p.1, p.2 ++ [mkInstance d2 r2]) else p } : Renderer)
      = some (afterSecondDraw s d1 d2 r1 r2)
    congr 1
    show ({ s with objects := (s.objects ++ [(d1.object, [mkInstance d1 r1])]).map fun p =>
        if p.1 == d1.object then (p.1, p.2 ++ [mkInstance d2 r2]) else p } : Renderer)
      = afterSecondDraw s d1 d2 r1 r2
    unfold afterSecondDraw
    congr 1
    rw [List.map_append]
    congr 1
    · rw [List.map_congr_left (g := id) ?_, List.map_id]
      intro p hp
      rw [if_neg (fun hcontra => hnotmem p hp hcontra)]
      rfl
    · show [if (d1.object == d1.object) = true
          then (d1.object, [mkInstance d1 r1] ++ [mkInstance d2 r2])
          else (d1.object, [mkInstance d1 r1])] = _
      rw [if_pos (beq_self_eq_true d1.object)]
      rfl
  · show ((s.objects ++ [(d1.object, [mkInstance d1 r1, mkInstance d2 r2])]).filter
        (fun p => p.1 == d1.object)).map (fun p => p.2) = _
    rw [List.filter_append]
    rw [show s.objects.filter (fun p => p.1 == d1.object) = [] from
      List.filter_eq_nil_iff.mpr hnotmem]
    rw [List.nil_append]
    rw [show List.filter (fun p => p.1 == d1.object)
        [(d1.object, [mkInstance d1 r1, mkInstance d2 r2])]
      = [(d1.object, [mkInstance d1 r1, mkInstance d2 r2])] by simp]
    rfl

/-! ## C9: draw clears instance lists and keeps the objects -/

/-- C9: after a (non-panicking) `draw()`, every object's per-frame instance
list is empty while the geometry keys, their order, and the atlas survive
untouched. -/
theorem draw_clears_instances (s s2 : Renderer) (hdraw : s.draw = some s2) :
    s2.objects.map (fun p => p.1) = s.objects.map (fun p => p.1) ∧
    (∀ p ∈ s2.objects, p.2 = ([] : List RenderInstance)) ∧
    s2.texture_atlas = s.texture_atlas := by
  unfold Renderer.draw at hdraw
  cases hobj : s.objects with
  | nil => rw [hobj] at hdraw; cases hdraw
  | cons o rest =>
    rw [hobj] at hdraw
    have hs2 : s2 = { s with objects := (o :: rest).map fun p => (p.1, []) } := by
      have h2 : some ({ s with objects := (o :: rest).map fun p => (p.1, []) } : Renderer)
          = some s2 := by
        rw [← hdraw]
      cases h2
      rfl
    subst hs2
    refine ⟨?_, ?_, rfl⟩
    · show ((o :: rest).map fun p => (p.1, ([] : List RenderInstance))).map (fun p => p.1)
        = (o :: rest).map fun p => p.1
      rw [List.map_map]
      rfl
    · intro p hp
      have hp2 : p ∈ (o :: rest).map fun p => (p.1, ([] : List RenderInstance)) := hp
      obtain ⟨q, -, rfl⟩ := List.mem_map.mp hp2
      rfl

/-- A 3×4 rect for the batching witness. -/
def rct8 : Rect := { x := 0, y := 0, w := 3, h := 4 }

/-- An atlas holding one registered 3×4 rect under handle 0. -/
def atlas8 : TextureAtlas :=
  { counter := 1, rects := [(rct8, 0)], width := 0, height := 0 }

/-- An empty batching state over `atlas8`. -/
def rend8 : Renderer := { objects := [], texture_atlas := atlas8 }

/-- First queued entity. -/
def dd1 : DrawableData := { vbytes := [1, 2], indices := [0], raw := [0], texture := 0 }

/-- Second queued entity: same geometry bytes, different transform. -/
def dd2 : DrawableData := { vbytes := [1, 2], indices := [0], raw := [1], texture := 0 }

/-- Witness for C8: queueing `dd1` then `dd2` on the empty state yields one
object with the two instance records. -/
theorem queue_draw_batches_witness :
    rend8.queue_draw dd1 = some (afterFirstDraw rend8 dd1 rct8) ∧
    (afterFirstDraw rend8 dd1 rct8).queue_draw dd2
      = some (afterSecondDraw rend8 dd1 dd2 rct8 rct8) ∧
    (((afterSecondDraw rend8 dd1 dd2 rct8 rct8).objects.filter
        (fun p => p.1 == dd1.object)).map (fun p => p.2))
      = [[mkInstance dd1 rct8, mkInstance dd2 rct8]] :=
  queue_draw_batches rend8 dd1 dd2 rct8 rct8 0 0 (by decide) (by decide) (by decide)
    (by decide) (by decide) (by decide)

/-- A one-object batching state for the frame-boundary witness. -/
def obj9 : RObject := { vertex_data := [], index_data := [], indices_length := 0 }

/-- Its single queued instance. -/
def inst9 : RenderInstance := { raw := [], tex_offset := (0, 0), tex_size := (0, 0) }

/-- The state before `draw()`. -/
def rend9 : Renderer :=
  { objects := [(obj9, [inst9])], texture_atlas := TextureAtlas.newAtlas }

/-- The state after `draw()`. -/
def rend9c : Renderer :=
  { objects := [(obj9, [])], texture_atlas := TextureAtlas.newAtlas }

/-- Witness for C9: drawing the one-object state empties its instance list and
keeps the object. -/
theorem draw_clears_instances_witness :
    rend9c.objects.map (fun p => p.1) = rend9.objects.map (fun p => p.1) ∧
    (∀ p ∈ rend9c.objects, p.2 = ([] : List RenderInstance)) ∧
    rend9c.texture_atlas = rend9.texture_atlas :=
  draw_clears_instances rend9 rend9c (by decide)
